import Mathlib

/-!
Verification of the bioma SSE transport (src/bioma_tool/src/transport/sse.rs).

The development shallowly embeds the protocol-bearing parts of the transport:
the JSON value model used for opaque JSON-RPC payloads, the serde_json
serializer and parser (numeric payloads are modelled as arbitrary-precision
integers; \uXXXX escapes are decoded as single scalar values, surrogate pairs
are not combined), the SSE event model and its text framing, the client
reader's rolling-buffer frame extraction and event routing, the server's HTTP
request routing, the client registry with its send path, the server close
fan-out, the client send path, and the client-mode retry loop.

Strings are modelled as lists of characters (`Str`), byte streams as lists of
naturals below 256.
-/

abbrev Str := List Char

/-- Shorthand turning a Lean string literal into the character-list model. -/
def sl (s : String) : Str := s.data

/-- Left brace character, written by code point to keep it out of literals. -/
def lbraceC : Char := Char.ofNat 123

/-- Right brace character, written by code point to keep it out of literals. -/
def rbraceC : Char := Char.ofNat 125

/-- JSON insignificant whitespace accepted by serde_json between tokens. -/
def isWsChar (c : Char) : Bool := c = ' ' || c = '\t' || c = '\n' || c = '\r'

/-- Drop leading JSON whitespace. -/
def dropWs (s : Str) : Str := s.dropWhile isWsChar

/-- ASCII decimal digit test. -/
def isDigitC (c : Char) : Bool := 48 ≤ c.toNat && c.toNat ≤ 57

/-- Numeric value of an ASCII decimal digit. -/
def digitVal (c : Char) : Nat := c.toNat - 48

/-- ASCII character of a decimal digit value. -/
def digitChar (d : Nat) : Char := Char.ofNat (48 + d)

/-- Value of a hexadecimal digit, accepting both cases as serde_json does. -/
def hexVal (c : Char) : Option Nat :=
  if 48 ≤ c.toNat ∧ c.toNat ≤ 57 then some (c.toNat - 48)
  else if 97 ≤ c.toNat ∧ c.toNat ≤ 102 then some (c.toNat - 87)
  else if 65 ≤ c.toNat ∧ c.toNat ≤ 70 then some (c.toNat - 55)
  else none

/-- Lowercase hexadecimal digit character, as emitted by serde_json escapes. -/
def hexDigitChar (d : Nat) : Char :=
  Char.ofNat (if d < 10 then 48 + d else 87 + d)

/-- Decimal digit string of a natural number, most significant digit first. -/
def natDigits (n : Nat) : List Char :=
  if _h : n < 10 then [digitChar n]
  else natDigits (n / 10) ++ [digitChar (n % 10)]
decreasing_by exact Nat.div_lt_self (by omega) (by omega)

/-- Numeric value of a decimal digit string. -/
def ofDigits (ds : List Char) : Nat := ds.foldl (fun a c => a * 10 + digitVal c) 0

/-- Decimal rendering of an integer, as serde_json prints integers. -/
def intChars (n : Int) : List Char :=
  if n < 0 then '-' :: natDigits n.natAbs else natDigits n.toNat

/-- JSON value model. serde_json::Value with numbers restricted to integers
(floating payloads are outside the scope of the embedding). -/
inductive Json where
  | null
  | bool (b : Bool)
  | num (n : Int)
  | str (s : Str)
  | arr (elems : List Json)
  | obj (members : List (Str × Json))

/-- Escape of a single character inside a JSON string literal, following
serde_json: quote and backslash get two-character escapes, control characters
below 0x20 get the short escapes b, t, n, f, r or a \u00XX escape, everything
else is emitted verbatim. -/
def escChar (c : Char) : List Char :=
  if c = '"' then ['\\', '"']
  else if c = '\\' then ['\\', '\\']
  else if c.toNat < 32 then
    if c = Char.ofNat 8 then ['\\', 'b']
    else if c = Char.ofNat 9 then ['\\', 't']
    else if c = Char.ofNat 10 then ['\\', 'n']
    else if c = Char.ofNat 12 then ['\\', 'f']
    else if c = Char.ofNat 13 then ['\\', 'r']
    else ['\\', 'u', '0', '0', hexDigitChar (c.toNat / 16), hexDigitChar (c.toNat % 16)]
  else [c]

/-- Escape a whole JSON string body. -/
def escStr (s : Str) : List Char := (s.map escChar).flatten

mutual

/-- Compact JSON serialization, as serde_json::to_string renders a Value. -/
def Json.ser : Json → List Char
  | .null => sl "null"
  | .bool true => sl "true"
  | .bool false => sl "false"
  | .num n => intChars n
  | .str s => '"' :: escStr s ++ ['"']
  | .arr xs => '[' :: serElems xs ++ [']']
  | .obj ms => lbraceC :: serMembers ms ++ [rbraceC]

/-- Comma-separated serialization of array elements. -/
def serElems : List Json → List Char
  | [] => []
  | [x] => Json.ser x
  | x :: y :: t => Json.ser x ++ ',' :: serElems (y :: t)

/-- Comma-separated serialization of object members. -/
def serMembers : List (Str × Json) → List Char
  | [] => []
  | [(k, v)] => '"' :: escStr k ++ '"' :: ':' :: Json.ser v
  | (k, v) :: m :: t =>
    ('"' :: escStr k ++ '"' :: ':' :: Json.ser v) ++ ',' :: serMembers (m :: t)

end

/-- Character denoted by a single-character JSON escape sequence. -/
def unescapeChar (c : Char) : Option Char :=
  if c = '"' then some '"'
  else if c = '\\' then some '\\'
  else if c = '/' then some '/'
  else if c = 'b' then some (Char.ofNat 8)
  else if c = 'f' then some (Char.ofNat 12)
  else if c = 'n' then some '\n'
  else if c = 'r' then some '\r'
  else if c = 't' then some '\t'
  else none

/-- Parse the body of a JSON string literal (after the opening quote),
returning the unescaped contents and the input after the closing quote.
Follows serde_json: raw control characters are rejected, the eight
single-character escapes and \uXXXX are accepted (a \uXXXX escape must denote
a valid scalar value in this model). -/
def parseStringBody : Str → Option (Str × Str)
  | [] => none
  | c :: rest =>
    if c = '"' then some ([], rest)
    else if c = '\\' then
      match rest with
      | [] => none
      | e :: rest2 =>
        if e = 'u' then
          match rest2 with
          | h1 :: h2 :: h3 :: h4 :: rest3 =>
            match hexVal h1, hexVal h2, hexVal h3, hexVal h4 with
            | some a, some b, some c4, some d =>
              let code := a * 4096 + b * 256 + c4 * 16 + d
              if code.isValidChar then
                match parseStringBody rest3 with
                | some (t, r) => some (Char.ofNat code :: t, r)
                | none => none
              else none
            | _, _, _, _ => none
          | _ => none
        else
          match unescapeChar e with
          | some d =>
            match parseStringBody rest2 with
            | some (t, r) => some (d :: t, r)
            | none => none
          | none => none
    else if c.toNat < 32 then none
    else
      match parseStringBody rest with
      | some (t, r) => some (c :: t, r)
      | none => none

/-- Consume an expected literal character sequence. -/
def expectChars : List Char → Str → Option Str
  | [], s => some s
  | c :: p, d :: s => if c = d then expectChars p s else none
  | _ :: _, [] => none

/-- Parse the digits of a JSON number (integer grammar: no leading zeros;
a following fraction or exponent marker is out of the embedding's integer
model and rejected). -/
def parseNumTail (s : Str) : Option (Nat × Str) :=
  let ds := s.takeWhile isDigitC
  let rest := s.dropWhile isDigitC
  if ds = [] then none
  else if 1 < ds.length ∧ ds.head? = some '0' then none
  else
    match rest with
    | c :: _ => if c = '.' ∨ c = 'e' ∨ c = 'E' then none else some (ofDigits ds, rest)
    | [] => some (ofDigits ds, [])

mutual

/-- Recursive-descent JSON value parse with a fuel bound on nesting,
following serde_json's grammar (whitespace between tokens, exactly one value). -/
def parseValue : Nat → Str → Option (Json × Str)
  | 0, _ => none
  | f + 1, s =>
    match dropWs s with
    | [] => none
    | c :: rest =>
      if c = 'n' then
        match expectChars (sl "ull") rest with
        | some r => some (.null, r)
        | none => none
      else if c = 't' then
        match expectChars (sl "rue") rest with
        | some r => some (.bool true, r)
        | none => none
      else if c = 'f' then
        match expectChars (sl "alse") rest with
        | some r => some (.bool false, r)
        | none => none
      else if c = '"' then
        match parseStringBody rest with
        | some (t, r) => some (.str t, r)
        | none => none
      else if c = '[' then
        match dropWs rest with
        | [] => none
        | d :: r2 =>
          if d = ']' then some (.arr [], r2)
          else
            match parseElems f (d :: r2) with
            | some (xs, r) => some (.arr xs, r)
            | none => none
      else if c = lbraceC then
        match dropWs rest with
        | [] => none
        | d :: r2 =>
          if d = rbraceC then some (.obj [], r2)
          else
            match parseMembers f (d :: r2) with
            | some (ms, r) => some (.obj ms, r)
            | none => none
      else if c = '-' then
        match parseNumTail rest with
        | some (m, r) => some (.num (-(m : Int)), r)
        | none => none
      else if isDigitC c then
        match parseNumTail (c :: rest) with
        | some (m, r) => some (.num (m : Int), r)
        | none => none
      else none

/-- Parse a non-empty comma-separated element list followed by the closing
bracket. -/
def parseElems : Nat → Str → Option (List Json × Str)
  | 0, _ => none
  | f + 1, s =>
    match parseValue f s with
    | none => none
    | some (v, r) =>
      match dropWs r with
      | [] => none
      | c :: r2 =>
        if c = ',' then
          match parseElems f r2 with
          | some (vs, rr) => some (v :: vs, rr)
          | none => none
        else if c = ']' then some ([v], r2)
        else none

/-- Parse a non-empty comma-separated member list followed by the closing
brace. -/
def parseMembers : Nat → Str → Option (List (Str × Json) × Str)
  | 0, _ => none
  | f + 1, s =>
    match dropWs s with
    | [] => none
    | c :: r1 =>
      if c = '"' then
        match parseStringBody r1 with
        | none => none
        | some (k, r2) =>
          match dropWs r2 with
          | [] => none
          | d :: r3 =>
            if d = ':' then
              match parseValue f r3 with
              | none => none
              | some (v, r4) =>
                match dropWs r4 with
                | [] => none
                | e2 :: r5 =>
                  if e2 = ',' then
                    match parseMembers f r5 with
                    | some (ms, rr) => some ((k, v) :: ms, rr)
                    | none => none
                  else if e2 = rbraceC then some ([(k, v)], r5)
                  else none
            else none
      else none

end

/-- Whole-input JSON parse, as serde_json::from_str on a Value: one value,
then nothing but whitespace. -/
def fromStr (s : Str) : Option Json :=
  match parseValue (s.length + 1) s with
  | some (v, r) => if dropWs r = [] then some v else none
  | none => none

/-- Big-endian value of a hex digit string, failing on a non-hex character. -/
def hexListVal (s : Str) : Option Nat :=
  s.foldl (fun acc c => acc.bind (fun a => (hexVal c).map (fun d => a * 16 + d))) (some 0)

/-- Parse the hyphenated 8-4-4-4-12 UUID form. -/
def uuidFromHyph (s : Str) : Option Nat :=
  let g1 := s.take 8
  match s.drop 8 with
  | '-' :: t1 =>
    let g2 := t1.take 4
    match t1.drop 4 with
    | '-' :: t2 =>
      let g3 := t2.take 4
      match t2.drop 4 with
      | '-' :: t3 =>
        let g4 := t3.take 4
        match t3.drop 4 with
        | '-' :: t4 =>
          if t4.length = 12 then hexListVal (g1 ++ g2 ++ g3 ++ g4 ++ t4) else none
        | _ => none
      | _ => none
    | _ => none
  | _ => none

/-- Parse of a UUID string as uuid::Uuid::parse_str accepts it: the simple
(32 hex digits), hyphenated (36 characters), braced (38) and URN (45) forms,
dispatched on length; hex digits in either case. Produces the 128-bit value. -/
def uuidParse (s : Str) : Option Nat :=
  if s.length = 32 then
    if s.all (fun c => (hexVal c).isSome) then hexListVal s else none
  else if s.length = 36 then uuidFromHyph s
  else if s.length = 38 then
    match s with
    | c :: t =>
      if c = lbraceC ∧ t.getLast? = some rbraceC then uuidFromHyph t.dropLast else none
    | [] => none
  else if s.length = 45 then
    match expectChars (sl "urn:uuid:") s with
    | some t => uuidFromHyph t
    | none => none
  else none

/-- The 32 hex digits of a 128-bit value, most significant nibble first. -/
def uuidHex32 (n : Nat) : Str :=
  (List.range 32).map (fun i => hexDigitChar (n / 16 ^ (31 - i) % 16))

/-- Standard hyphenated lowercase rendering of a 128-bit UUID value, the
Display form of uuid::Uuid. -/
def uuidRender (n : Nat) : Str :=
  let h := uuidHex32 n
  h.take 8 ++ '-' :: ((h.drop 8).take 4 ++ '-' :: ((h.drop 12).take 4 ++
    '-' :: ((h.drop 16).take 4 ++ '-' :: h.drop 20)))

/-- Modelled from the spec: the ClientId type lives at the crate root, which
is not under src/. The spec describes it as "an opaque 128-bit identifier,
textually rendered as its standard UUID form", generated fresh per accepted
GET stream and serializable (its serde form is the UUID string). -/
structure ClientIdM where
  val : Nat
deriving DecidableEq

/-- Types of system messages (SystemMessageType in the source). -/
inductive SystemMessageType where
  | endpoint (url : Str)
  | shutdown (reason : Str)

/-- SSE event type handling both transport and system messages. The
JsonRpcMessage payload is modelled from the spec as an opaque JSON value
(the type lives at the crate root, not under src/). -/
inductive SseEvent where
  | transport (message : Json) (event_type : Str)
  | system (msg : SystemMessageType)

/-- Transport event with the standard "message" event type
(SseEvent::new_transport). -/
def SseEvent.new_transport (m : Json) : SseEvent := .transport m (sl "message")

/-- Format an event as an SSE frame string (SseEvent::to_sse_event). In the
source this returns a Result, but serializing a JSON value cannot fail, so the
model is total. -/
def SseEvent.to_sse_event : SseEvent → Str
  | .transport m t => sl "event: " ++ t ++ '\n' :: (sl "data: " ++ Json.ser m ++ sl "\n\n")
  | .system (.endpoint url) => sl "event: endpoint\ndata: " ++ url ++ sl "\n\n"
  | .system (.shutdown reason) => sl "event: shutdown\ndata: " ++ reason ++ sl "\n\n"

/-- Components of one decoded SSE frame (ParsedSseEvent in the source). -/
structure ParsedSseEvent where
  event_type : Option Str
  data : Option Str
deriving DecidableEq

/-- Split a character list at every newline; the resulting segment list keeps
a final (possibly empty) unterminated segment. -/
def splitOnNl : Str → List Str
  | [] => [[]]
  | c :: t =>
    if c = '\n' then [] :: splitOnNl t
    else
      match splitOnNl t with
      | h :: r => (c :: h) :: r
      | [] => [[c]]

/-- Remove one trailing carriage return. -/
def dropTrailCR (l : Str) : Str := if l.getLast? = some '\r' then l.dropLast else l

/-- Rust str::lines: split at \n, treating a \r immediately before the \n as
part of the terminator; a final segment without terminator is kept as-is, and
the empty final segment after a trailing \n is not a line. -/
def linesModel (s : Str) : List Str :=
  let segs := splitOnNl s
  (segs.dropLast.map dropTrailCR) ++
    (match segs.getLast? with
     | some [] => []
     | some l => [l]
     | none => [])

/-- Parse an SSE event string into its components
(SseTransport::parse_sse_event): scan the lines, retaining the last
"data: "-prefixed and last "event: "-prefixed payloads. -/
def parse_sse_event (event : Str) : ParsedSseEvent :=
  (linesModel event).foldl
    (fun pe line =>
      match expectChars (sl "data: ") line with
      | some d => { pe with data := some d }
      | none =>
        match expectChars (sl "event: ") line with
        | some t => { pe with event_type := some t }
        | none => pe)
    ⟨none, none⟩

/-- Try to parse the frame data as a JsonRpcMessage
(ParsedSseEvent::parse_json_rpc). The outer Option models the Result: none is
the serde error; some none is Ok(None) for an absent data field. -/
def parse_json_rpc (pe : ParsedSseEvent) : Option (Option Json) :=
  match pe.data with
  | some d =>
    match fromStr d with
    | some m => some (some m)
    | none => none
  | none => some none

/-- Externally tagged serde decoding of SystemMessageType from a JSON value:
a one-key object tagged Endpoint with a string payload, or Shutdown with an
object holding the reason field. -/
def sysOfJson : Json → Option SystemMessageType
  | .obj [(k, v)] =>
    if k = sl "Endpoint" then
      match v with
      | .str u => some (.endpoint u)
      | _ => none
    else if k = sl "Shutdown" then
      match v with
      | .obj [(k2, .str r)] => if k2 = sl "reason" then some (.shutdown r) else none
      | _ => none
    else none
  | _ => none

/-- Try to parse the frame data as a SystemMessageType
(ParsedSseEvent::parse_system_message); outer Option as in parse_json_rpc. -/
def parse_system_message (pe : ParsedSseEvent) : Option (Option SystemMessageType) :=
  match pe.data with
  | some d =>
    match fromStr d with
    | some j =>
      match sysOfJson j with
      | some m => some (some m)
      | none => none
    | none => none
  | none => some none

/-- Observable state of the client reader task in connect_to_sse: the
message_endpoint cell guarded by its mutex, and the messages forwarded to the
on_message sink so far. -/
structure ClientReaderState where
  message_endpoint : Option Str
  forwarded : List Json

/-- What the reader loop does after handling one event. -/
inductive ReaderStep where
  | continueReading
  | stopOk
  | stopErr (msg : Str)
deriving DecidableEq

/-- Routing of one parsed event inside connect_to_sse's event loop: endpoint
events update message_endpoint when their data decodes as an Endpoint system
message (decoding failures drop the frame); message events forward decoded
JSON-RPC to the sink (channel closure is fatal, decoding failures drop the
frame); shutdown ends the reader with success; other types are ignored. -/
def routeSseEvent (st : ClientReaderState) (sinkOpen : Bool) (pe : ParsedSseEvent) :
    ClientReaderState × ReaderStep :=
  match pe.event_type with
  | some t =>
    if t = sl "endpoint" then
      match parse_system_message pe with
      | some (some (.endpoint url)) =>
        ({ st with message_endpoint := some url }, .continueReading)
      | _ => (st, .continueReading)
    else if t = sl "message" then
      match parse_json_rpc pe with
      | some (some m) =>
        if sinkOpen then ({ st with forwarded := st.forwarded ++ [m] }, .continueReading)
        else (st, .stopErr (sl "Message channel closed"))
      | _ => (st, .continueReading)
    else if t = sl "shutdown" then (st, .stopOk)
    else (st, .continueReading)
  | none => (st, .continueReading)

/-- Position of the first "\n\n" delimiter (str::find on the rolling buffer). -/
def findDelim : Str → Option Nat
  | [] => none
  | [_] => none
  | a :: b :: t =>
    if a = '\n' ∧ b = '\n' then some 0 else (findDelim (b :: t)).map (· + 1)

/-- Inner while-loop of connect_to_sse: repeatedly slice out the complete
events (each including its terminating blank line) from the front of the
buffer, returning them with the remaining buffer. Fuel-driven; one delimiter
consumes at least two characters, so the buffer length bounds the rounds. -/
def extractGo : Nat → Str → List Str × Str
  | 0, buf => ([], buf)
  | fuel + 1, buf =>
    match findDelim buf with
    | none => ([], buf)
    | some p =>
      let ev := buf.take (p + 2)
      let rest := buf.drop (p + 2)
      let (es, r) := extractGo fuel rest
      (ev :: es, r)

/-- Extract all complete events from a buffer. -/
def extractEvents (buf : Str) : List Str × Str := extractGo buf.length buf

/-- Feed text chunks through the rolling buffer, collecting the parse of each
complete event in order (the chunk loop of connect_to_sse, observed at the
parse_sse_event boundary). -/
def processChunks (buf : Str) : List Str → List ParsedSseEvent
  | [] => []
  | c :: cs =>
    let (es, r) := extractEvents (buf ++ c)
    es.map parse_sse_event ++ processChunks r cs

/-- Parsed-event sequence produced by the client reader from a chunk list,
starting from an empty buffer. -/
def clientFeed (chunks : List Str) : List ParsedSseEvent := processChunks [] chunks

/-- The U+FFFD replacement character. -/
def replChar : Char := Char.ofNat 0xFFFD

/-- String::from_utf8_lossy on a byte list: decode UTF-8, replacing each
maximal ill-formed subpart with one U+FFFD. The fuel is structural bookkeeping
only; every round consumes at least one byte, so the byte count is enough. -/
def utf8LossyGo : Nat → List Nat → List Char
  | 0, _ => []
  | _ + 1, [] => []
  | fuel + 1, b :: rest =>
    if b < 0x80 then Char.ofNat b :: utf8LossyGo fuel rest
    else if 0xC2 ≤ b ∧ b ≤ 0xDF then
      match rest with
      | b2 :: rest2 =>
        if 0x80 ≤ b2 ∧ b2 ≤ 0xBF then
          Char.ofNat ((b - 0xC0) * 64 + (b2 - 0x80)) :: utf8LossyGo fuel rest2
        else replChar :: utf8LossyGo fuel rest
      | [] => [replChar]
    else if 0xE0 ≤ b ∧ b ≤ 0xEF then
      match rest with
      | b2 :: rest2 =>
        if (if b = 0xE0 then 0xA0 else 0x80) ≤ b2 ∧ b2 ≤ (if b = 0xED then 0x9F else 0xBF) then
          match rest2 with
          | b3 :: rest3 =>
            if 0x80 ≤ b3 ∧ b3 ≤ 0xBF then
              Char.ofNat ((b - 0xE0) * 4096 + (b2 - 0x80) * 64 + (b3 - 0x80)) :: utf8LossyGo fuel rest3
            else replChar :: utf8LossyGo fuel rest2
          | [] => [replChar]
        else replChar :: utf8LossyGo fuel rest
      | [] => [replChar]
    else if 0xF0 ≤ b ∧ b ≤ 0xF4 then
      match rest with
      | b2 :: rest2 =>
        if (if b = 0xF0 then 0x90 else 0x80) ≤ b2 ∧ b2 ≤ (if b = 0xF4 then 0x8F else 0xBF) then
          match rest2 with
          | b3 :: rest3 =>
            if 0x80 ≤ b3 ∧ b3 ≤ 0xBF then
              match rest3 with
              | b4 :: rest4 =>
                if 0x80 ≤ b4 ∧ b4 ≤ 0xBF then
                  Char.ofNat ((b - 0xF0) * 262144 + (b2 - 0x80) * 4096 +
                    (b3 - 0x80) * 64 + (b4 - 0x80)) :: utf8LossyGo fuel rest4
                else replChar :: utf8LossyGo fuel rest3
              | [] => [replChar]
            else replChar :: utf8LossyGo fuel rest2
          | [] => [replChar]
        else replChar :: utf8LossyGo fuel rest
      | [] => [replChar]
    else replChar :: utf8LossyGo fuel rest

/-- Lossy UTF-8 decode of a whole byte list. -/
def utf8Lossy (bs : List Nat) : List Char := utf8LossyGo bs.length bs

/-- Parsed-event sequence from byte chunks: each chunk is appended to the
rolling text buffer after lossy UTF-8 conversion, as the reader does. -/
def byteFeed (bchunks : List (List Nat)) : List ParsedSseEvent :=
  clientFeed (bchunks.map utf8Lossy)

/-- One per-client bounded channel, seen from the registry: whether the writer
task still holds the receiver, and the events enqueued so far. -/
structure ClientChan where
  receiverAlive : Bool
  queue : List SseEvent

/-- Client registry contents (the HashMap under the registry mutex). -/
abbrev Registry := List (ClientIdM × ClientChan)

/-- HashMap::get. -/
def regLookup (reg : Registry) (cid : ClientIdM) : Option ClientChan :=
  match reg with
  | [] => none
  | (k, ch) :: t => if k = cid then some ch else regLookup t cid

/-- Replace the channel stored for an id. -/
def regUpdate (reg : Registry) (cid : ClientIdM) (ch : ClientChan) : Registry :=
  match reg with
  | [] => []
  | (k, c) :: t => if k = cid then (k, ch) :: t else (k, c) :: regUpdate t cid ch

/-- SSE error values (SseError in the source), restricted to the variants the
modelled paths construct. -/
inductive SseErrorM where
  | connectionError (msg : Str)
  | httpError (code : Nat)
  | channelError (msg : Str)
  | other (msg : Str)
deriving DecidableEq

/-- Message of the SseError::Other used for invalid send metadata. -/
def invalidMetadataMsg : Str := sl "Invalid metadata type provided"

/-- Message of the SseError::Other used for an unknown client id. -/
def clientNotFoundMsg (cid : ClientIdM) : Str :=
  sl "Client " ++ uuidRender cid.val ++ sl " not found"

/-- Message of the SseError::Other used for a client send before the endpoint
advertisement. -/
def noEndpointMsg : Str :=
  sl "No endpoint URL available yet. Wait for the SSE connection to establish."

/-- Message of the SseError::Other used when the retry loop exhausts without a
recorded error. -/
def connectFailedMsg : Str := sl "Failed to connect after retries"

/-- Reason carried by the shutdown events fanned out on close. -/
def shutdownReasonMsg : Str := sl "Server is shutting down"

/-- How a send to a registered client ended: enqueued on the channel, or the
receiver was dropped (logged, reported as a disconnect, entry kept). -/
inductive SendToOutcome where
  | delivered
  | peerGone
deriving DecidableEq

/-- SseTransport::send_to_client: look the id up under the registry mutex; a
missing id is an error; a failing channel send (receiver dropped) is logged
and the entry is left in place, with the function still returning ok. -/
def send_to_client (reg : Registry) (cid : ClientIdM) (ev : SseEvent) :
    Except SseErrorM (Registry × SendToOutcome) :=
  match regLookup reg cid with
  | some ch =>
    if ch.receiverAlive then
      .ok (regUpdate reg cid { ch with queue := ch.queue ++ [ev] }, .delivered)
    else .ok (reg, .peerGone)
  | none => .error (.other (clientNotFoundMsg cid))

/-- First value stored under a key in a JSON object. -/
def objLookup (ms : List (Str × Json)) (k : Str) : Option Json :=
  match ms with
  | [] => none
  | (k2, v) :: t => if k2 = k then some v else objLookup t k

/-- serde_json::from_value::<SseMetadata>: the metadata must be an object whose
client_id field holds a UUID string (unknown fields are ignored). -/
def sseMetadataFromJson (metadata : Json) : Option ClientIdM :=
  match metadata with
  | .obj ms =>
    match objLookup ms (sl "client_id") with
    | some (.str s) => (uuidParse s).map ClientIdM.mk
    | _ => none
  | _ => none

/-- Server arm of SseTransport::send: extract the client id from the metadata
envelope, wrap the message in a Transport event with the "message" event type
and send it to that client. -/
def serverSend (reg : Registry) (message : Json) (metadata : Json) :
    Except SseErrorM (Registry × SendToOutcome) :=
  match sseMetadataFromJson metadata with
  | some cid => send_to_client reg cid (SseEvent.new_transport message)
  | none => .error (.other invalidMetadataMsg)

/-- HTTP methods the route match distinguishes. -/
inductive HttpMethod where
  | get
  | post
  | put
  | delete
  | head
deriving DecidableEq

/-- Observable parts of a hyper response built by the server's service
function: status code, the headers the SSE path sets, and whether the body is
the event stream (as opposed to Empty). -/
structure ServerResponse where
  status : Nat
  contentType : Option Str
  cacheControl : Option Str
  connectionHdr : Option Str
  streamBody : Bool
deriving DecidableEq

/-- Message forwarded to the server's inbound sink (SseMessage). -/
structure SseMessageM where
  message : Json
  client_id : ClientIdM

/-- Result of the server's service function on one request: the response, the
registry after the request, and what was forwarded to the inbound sink. -/
structure HandleResult where
  response : ServerResponse
  registryAfter : Registry
  forwarded : Option SseMessageM

/-- The service_fn route match in SseTransport::start. GET / registers a fresh
client and answers 200 with the SSE headers and a streaming body; every POST
is handled by the message arm, which answers 400 unless the path is /message/
followed by a parseable UUID, and otherwise parses the body as a
JsonRpcMessage, forwarding a parse success to the inbound sink (sink closure
is only logged) and answering 200 with an empty body either way; every other
method/path pair answers 404. The fresh client id and the sink's openness are
parameters of the model. -/
def handleRequest (reg : Registry) (freshId : ClientIdM) (sinkOpen : Bool)
    (method : HttpMethod) (path : Str) (body : Str) : HandleResult :=
  if method = .get ∧ path = sl "/" then
    ⟨⟨200, some (sl "text/event-stream"), some (sl "no-cache"), some (sl "keep-alive"), true⟩,
      reg ++ [(freshId, ⟨true, []⟩)], none⟩
  else if method = .post then
    match (expectChars (sl "/message/") path).bind uuidParse with
    | some u =>
      ⟨⟨200, none, none, none, false⟩, reg,
        match fromStr body with
        | some m => if sinkOpen then some ⟨m, ⟨u⟩⟩ else none
        | none => none⟩
    | none => ⟨⟨400, none, none, none, false⟩, reg, none⟩
  else ⟨⟨404, none, none, none, false⟩, reg, none⟩

/-- Per-client record of the close fan-out: the shutdown event each drained
entry was sent, and whether the channel still had a live receiver. -/
def closeDrain : Registry → List (ClientIdM × SseEvent) × List (ClientIdM × Bool)
  | [] => ([], [])
  | (cid, ch) :: t =>
    let ev := SseEvent.system (.shutdown shutdownReasonMsg)
    let (sends, fates) := closeDrain t
    ((cid, ev) :: sends, (cid, ch.receiverAlive) :: fates)

/-- Result of the server close: the returned value, the drained registry, the
send attempted for each entry and each attempt's delivery fate. -/
structure CloseResult where
  result : Except SseErrorM Unit
  registryAfter : Registry
  sendsAttempted : List (ClientIdM × SseEvent)
  deliveryFates : List (ClientIdM × Bool)

/-- Server arm of SseTransport::close: drain the registry, send each drained
client one shutdown event, ignore per-client send failures, return ok. -/
def serverClose (reg : Registry) : CloseResult :=
  { result := .ok (),
    registryAfter := [],
    sendsAttempted := (closeDrain reg).1,
    deliveryFates := (closeDrain reg).2 }

/-- One HTTP POST issued by the client send path. -/
structure PostRequest where
  url : Str
  contentType : Str
  body : Str
deriving DecidableEq

/-- reqwest StatusCode::is_success: the 2xx range. -/
def is_success (status : Nat) : Bool := 200 ≤ status && status ≤ 299

/-- Client arm of SseTransport::send: read message_endpoint under its mutex,
failing before any HTTP activity when it is unset; otherwise POST the
serialized message to the stored URL with Content-Type application/json, and
fail with the HTTP error exactly when the response status is not 2xx. The
network is modelled by the respond function giving the status of each
request; the issued requests are returned alongside the result. -/
def clientSend (message_endpoint : Option Str) (message : Json)
    (respond : PostRequest → Nat) : Except SseErrorM Unit × List PostRequest :=
  match message_endpoint with
  | none => (.error (.other noEndpointMsg), [])
  | some url =>
    let req : PostRequest := ⟨url, sl "application/json", Json.ser message⟩
    let status := respond req
    if is_success status then (.ok (), [req])
    else (.error (.httpError status), [req])

/-- Trace of the client-mode retry loop: the task's result, how many times the
connection attempt ran, and how many retry sleeps happened. -/
structure RetryTrace where
  result : Except SseErrorM Unit
  attemptsMade : Nat
  sleeps : Nat

/-- Body of the client-mode retry loop in SseTransport::start. The while
condition attempts < retry_count is encoded by the remaining counter
(retry_count - attempts); attempts is incremented before each connection
attempt, a success returns immediately, a failure records the error and
sleeps retry_delay before the next round, and exhaustion returns the recorded
error, or the connect-failed error when none was recorded. The attempt
outcomes are modelled by the connect function, indexed by attempt number. -/
def retryGoAux (connect : Nat → Except SseErrorM Unit) :
    Nat → Nat → Nat → Option SseErrorM → RetryTrace
  | 0, attempts, sleeps, lastError =>
    ⟨.error (lastError.getD (.other connectFailedMsg)), attempts, sleeps⟩
  | r + 1, attempts, sleeps, _lastError =>
    match connect (attempts + 1) with
    | .ok _ => ⟨.ok (), attempts + 1, sleeps⟩
    | .error e => retryGoAux connect r (attempts + 1) (sleeps + 1) (some e)

/-- The client-mode retry loop, started with zero attempts and no recorded
error. -/
def retryLoop (connect : Nat → Except SseErrorM Unit) (retry_count : Nat) : RetryTrace :=
  retryGoAux connect retry_count 0 0 none

mutual

/-- Fuel sufficient for parseValue to parse the serialization of a value. -/
def pvFuel : Json → Nat
  | .null => 1
  | .bool _ => 1
  | .num _ => 1
  | .str _ => 1
  | .arr [] => 1
  | .arr (x :: xs) => 1 + peFuel (x :: xs)
  | .obj [] => 1
  | .obj (m :: ms) => 1 + pmFuel (m :: ms)

/-- Fuel sufficient for parseElems on a serialized element list. -/
def peFuel : List Json → Nat
  | [] => 1
  | [x] => 1 + pvFuel x
  | x :: y :: t => 1 + max (pvFuel x) (peFuel (y :: t))

/-- Fuel sufficient for parseMembers on a serialized member list. -/
def pmFuel : List (Str × Json) → Nat
  | [] => 1
  | [(_, v)] => 1 + pvFuel v
  | (_, v) :: m :: t => 1 + max (pvFuel v) (pmFuel (m :: t))

end

/-- Characters that may legitimately follow a serialized value inside a larger
serialized term (or end of input): the serializer only ever puts a comma, a
closing bracket or a closing brace there. -/
def DelimOk : Str → Prop
  | [] => True
  | c :: _ => c = ',' ∨ c = ']' ∨ c = rbraceC

/-- Character starting the serialization of any JSON value. -/
def isStartChar (c : Char) : Bool :=
  c = 'n' || c = 't' || c = 'f' || c = '"' || c = '[' || c = lbraceC || c = '-' || isDigitC c

instance : DecidablePred DelimOk := fun s =>
  match s with
  | [] => inferInstanceAs (Decidable True)
  | _ :: _ => inferInstanceAs (Decidable (_ ∨ _ ∨ _))

theorem dropWs_not_ws {c : Char} (h : isWsChar c = false) (s : Str) :
    dropWs (c :: s) = c :: s := by
  simp [dropWs, List.dropWhile_cons, h]

theorem expectChars_self (p : List Char) (s : Str) : expectChars p (p ++ s) = some s := by
  induction p with
  | nil => rfl
  | cons c t ih => simp [expectChars, ih]

theorem takeWhile_all_append {p : Char → Bool} {xs ys : Str} (hx : ∀ c ∈ xs, p c = true)
    (hy : ∀ c, ys.head? = some c → p c = false) :
    (xs ++ ys).takeWhile p = xs ∧ (xs ++ ys).dropWhile p = ys := by
  induction xs with
  | nil =>
    simp only [List.nil_append]
    cases ys with
    | nil => simp
    | cons c t => simp [List.takeWhile_cons, List.dropWhile_cons, hy c rfl]
  | cons c t ih =>
    have hc : p c = true := hx c (by simp)
    have := ih (fun d hd => hx d (by simp [hd]))
    simp [List.takeWhile_cons, List.dropWhile_cons, hc, this.1, this.2]

theorem digit_not_special {c : Char} (h : isDigitC c = true) :
    c ≠ 'n' ∧ c ≠ 't' ∧ c ≠ 'f' ∧ c ≠ '"' ∧ c ≠ '[' ∧ c ≠ lbraceC ∧ c ≠ '-' ∧
    isWsChar c = false ∧ c ≠ ']' ∧ c ≠ rbraceC ∧ c ≠ ',' ∧ c ≠ '.' ∧ c ≠ 'e' ∧ c ≠ 'E' := by
  have hv : 48 ≤ c.toNat ∧ c.toNat ≤ 57 := by simpa [isDigitC] using h
  have hne : ∀ d : Char, (48 ≤ d.toNat ∧ d.toNat ≤ 57 → False) → c ≠ d := by
    intro d hd hcd
    exact hd (hcd ▸ hv)
  have hws : isWsChar c = false := by
    have h1 : c ≠ ' ' := hne _ (by decide)
    have h2 : c ≠ '\t' := hne _ (by decide)
    have h3 : c ≠ '\n' := hne _ (by decide)
    have h4 : c ≠ '\r' := hne _ (by decide)
    simp [isWsChar, h1, h2, h3, h4]
  exact ⟨hne _ (by decide), hne _ (by decide), hne _ (by decide), hne _ (by decide),
    hne _ (by decide), hne _ (by decide), hne _ (by decide), hws,
    hne _ (by decide), hne _ (by decide), hne _ (by decide), hne _ (by decide),
    hne _ (by decide), hne _ (by decide)⟩

theorem startChar_not_ws {c : Char} (h : isStartChar c = true) : isWsChar c = false := by
  simp only [isStartChar, Bool.or_eq_true, decide_eq_true_eq] at h
  rcases h with ((((((h | h) | h) | h) | h) | h) | h) | h
  all_goals first
  | (subst h; decide)
  | exact (digit_not_special h).2.2.2.2.2.2.2.1

theorem startChar_ne_rbrack {c : Char} (h : isStartChar c = true) : c ≠ ']' := by
  simp only [isStartChar, Bool.or_eq_true, decide_eq_true_eq] at h
  rcases h with ((((((h | h) | h) | h) | h) | h) | h) | h
  all_goals first
  | (subst h; decide)
  | exact (digit_not_special h).2.2.2.2.2.2.2.2.1

theorem digitChar_digit {d : Nat} (h : d < 10) : isDigitC (digitChar d) = true := by
  interval_cases d <;> decide

theorem digitVal_digitChar {d : Nat} (h : d < 10) : digitVal (digitChar d) = d := by
  interval_cases d <;> decide

theorem digitChar_ne_zero {d : Nat} (h0 : 0 < d) (h : d < 10) : digitChar d ≠ '0' := by
  interval_cases d <;> decide

theorem natDigits_eq (n : Nat) : natDigits n =
    if n < 10 then [digitChar n] else natDigits (n / 10) ++ [digitChar (n % 10)] := by
  rw [natDigits]
  split <;> simp_all

theorem natDigits_ne_nil (n : Nat) : natDigits n ≠ [] := by
  rw [natDigits_eq]
  split <;> simp

theorem natDigits_all_digits (n : Nat) : ∀ c ∈ natDigits n, isDigitC c = true := by
  induction n using Nat.strong_induction_on with
  | _ n ih =>
    rw [natDigits_eq]
    split
    · next h => simpa using digitChar_digit h
    · next h =>
      intro c hc
      rcases List.mem_append.mp hc with h1 | h1
      · exact ih (n / 10) (Nat.div_lt_self (by omega) (by omega)) c h1
      · simp at h1
        exact h1 ▸ digitChar_digit (Nat.mod_lt _ (by omega))

theorem ofDigits_append_one (xs : List Char) (c : Char) :
    ofDigits (xs ++ [c]) = ofDigits xs * 10 + digitVal c := by
  simp [ofDigits, List.foldl_append]

theorem ofDigits_natDigits (n : Nat) : ofDigits (natDigits n) = n := by
  induction n using Nat.strong_induction_on with
  | _ n ih =>
    rw [natDigits_eq]
    split
    · next h => simp [ofDigits, digitVal_digitChar h]
    · next h =>
      rw [ofDigits_append_one, ih (n / 10) (Nat.div_lt_self (by omega) (by omega)),
        digitVal_digitChar (Nat.mod_lt _ (by omega))]
      omega

theorem natDigits_head_ne_zero {n : Nat} (h0 : 0 < n) :
    ∀ c, (natDigits n).head? = some c → c ≠ '0' := by
  induction n using Nat.strong_induction_on with
  | _ n ih =>
    rw [natDigits_eq]
    split
    · next h =>
      intro c hc
      simp at hc
      exact hc ▸ digitChar_ne_zero h0 h
    · next h =>
      intro c hc
      have hd : 0 < n / 10 := Nat.div_pos (by omega) (by omega)
      obtain ⟨d, t, hdt⟩ := List.exists_cons_of_ne_nil (natDigits_ne_nil (n / 10))
      rw [hdt] at hc
      simp at hc
      refine ih (n / 10) (Nat.div_lt_self (by omega) (by omega)) hd c ?_
      rw [hdt]
      simpa using hc

theorem delim_head_props {rest : Str} (hr : DelimOk rest) :
    ∀ c, rest.head? = some c →
      isDigitC c = false ∧ c ≠ '.' ∧ c ≠ 'e' ∧ c ≠ 'E' ∧ isWsChar c = false := by
  intro c hc
  cases rest with
  | nil => simp at hc
  | cons r t =>
    simp at hc
    subst hc
    rcases hr with h | h | h <;> subst h <;> refine ⟨?_, ?_, ?_, ?_, ?_⟩ <;> decide

theorem parseNumTail_digits (n : Nat) (rest : Str) (hr : DelimOk rest) :
    parseNumTail (natDigits n ++ rest) = some (n, rest) := by
  have hall := natDigits_all_digits n
  have hrest : ∀ c, rest.head? = some c → isDigitC c = false :=
    fun c hc => (delim_head_props hr c hc).1
  obtain ⟨ht, hdq⟩ := takeWhile_all_append hall hrest
  have hnz : 1 < (natDigits n).length → ¬(natDigits n).head? = some '0' := by
    intro hlen hhead
    rcases Nat.eq_zero_or_pos n with hn0 | hn0
    · subst hn0
      rw [natDigits_eq] at hlen
      simp at hlen
    · exact natDigits_head_ne_zero hn0 '0' hhead rfl
  unfold parseNumTail
  rw [ht, hdq]
  cases rest with
  | nil =>
    simp only [natDigits_ne_nil n, ofDigits_natDigits, if_neg]
    simp [ofDigits_natDigits]
    exact hnz
  | cons r t =>
    have hp := delim_head_props hr r rfl
    simp [natDigits_ne_nil n, hp.2.1, hp.2.2.1, hp.2.2.2.1, ofDigits_natDigits]
    exact hnz

theorem escStr_nil : escStr [] = [] := rfl

theorem escStr_cons (c : Char) (t : Str) : escStr (c :: t) = escChar c ++ escStr t := by
  simp [escStr]

theorem hexVal_hexDigitChar : ∀ d, d < 16 → hexVal (hexDigitChar d) = some d := by decide

theorem parseStringBody_esc (s : Str) (rest : Str) :
    parseStringBody (escStr s ++ '"' :: rest) = some (s, rest) := by
  induction s with
  | nil =>
    rw [escStr_nil, List.nil_append, parseStringBody.eq_def]
    simp
  | cons c t ih =>
    rw [escStr_cons, List.append_assoc]
    by_cases hq : c = '"'
    · subst hq
      rw [show escChar '"' = ['\\', '"'] from rfl, parseStringBody.eq_def]
      simp [unescapeChar, ih]
    · by_cases hb : c = '\\'
      · subst hb
        rw [show escChar '\\' = ['\\', '\\'] from rfl, parseStringBody.eq_def]
        simp [unescapeChar, ih]
      · by_cases hctl : c.toNat < 32
        · by_cases h8 : c = Char.ofNat 8
          · subst h8
            rw [show escChar (Char.ofNat 8) = ['\\', 'b'] from rfl, parseStringBody.eq_def]
            simp [unescapeChar, ih]
          · by_cases h9 : c = Char.ofNat 9
            · subst h9
              rw [show escChar (Char.ofNat 9) = ['\\', 't'] from rfl, parseStringBody.eq_def]
              simp [unescapeChar, ih]
            · by_cases h10 : c = Char.ofNat 10
              · subst h10
                rw [show escChar (Char.ofNat 10) = ['\\', 'n'] from rfl, parseStringBody.eq_def]
                simp [unescapeChar, ih]
              · by_cases h12 : c = Char.ofNat 12
                · subst h12
                  rw [show escChar (Char.ofNat 12) = ['\\', 'f'] from rfl, parseStringBody.eq_def]
                  simp [unescapeChar, ih]
                · by_cases h13 : c = Char.ofNat 13
                  · subst h13
                    rw [show escChar (Char.ofNat 13) = ['\\', 'r'] from rfl,
                      parseStringBody.eq_def]
                    simp [unescapeChar, ih]
                  · have hesc : escChar c = ['\\', 'u', '0', '0',
                        hexDigitChar (c.toNat / 16), hexDigitChar (c.toNat % 16)] := by
                      simp [escChar, hq, hb, hctl, h8, h9, h10, h12, h13]
                    rw [hesc, parseStringBody.eq_def]
                    have hv3 := hexVal_hexDigitChar (c.toNat / 16) (by omega)
                    have hv4 := hexVal_hexDigitChar (c.toNat % 16) (by omega)
                    have hcode : 0 * 4096 + 0 * 256 + c.toNat / 16 * 16 + c.toNat % 16 =
                        c.toNat := by omega
                    have hvalid : Nat.isValidChar c.toNat := Or.inl (by omega)
                    simp only [List.cons_append]
                    simp [show hexVal '0' = some 0 from rfl, hv3, hv4, hcode, hvalid,
                      Char.ofNat_toNat, ih]
                    rw [show c.toNat / 16 * 16 + c.toNat % 16 = c.toNat by omega]
                    exact ⟨hvalid, Char.ofNat_toNat c⟩
        · have hesc : escChar c = [c] := by simp [escChar, hq, hb, hctl]
          rw [hesc, List.cons_append, List.nil_append, parseStringBody.eq_def]
          simp [hq, hb, hctl, ih]

theorem pvFuel_pos : ∀ v : Json, 1 ≤ pvFuel v := by
  intro v
  cases v with
  | arr xs => cases xs <;> simp [pvFuel]
  | obj ms => cases ms <;> simp [pvFuel]
  | _ => simp [pvFuel]

theorem peFuel_pos : ∀ xs : List Json, 1 ≤ peFuel xs := by
  intro xs
  cases xs with
  | nil => simp [peFuel]
  | cons x t => cases t <;> simp [peFuel]

theorem pmFuel_pos : ∀ ms : List (Str × Json), 1 ≤ pmFuel ms := by
  intro ms
  cases ms with
  | nil => simp [pmFuel]
  | cons m t =>
    obtain ⟨k, v⟩ := m
    cases t <;> simp [pmFuel]

theorem serElems_cons_eq (x : Json) (t : List Json) :
    serElems (x :: t) = Json.ser x ++ (match t with | [] => [] | y :: t2 => ',' :: serElems (y :: t2)) := by
  cases t <;> simp [serElems]

theorem ser_head_start (v : Json) : ∃ c t, Json.ser v = c :: t ∧ isStartChar c = true := by
  cases v with
  | null => exact ⟨'n', sl "ull", rfl, by decide⟩
  | bool b =>
    cases b
    · exact ⟨'f', sl "alse", rfl, by decide⟩
    · exact ⟨'t', sl "rue", rfl, by decide⟩
  | num n =>
    by_cases hn : n < 0
    · refine ⟨'-', natDigits n.natAbs, ?_, by decide⟩
      simp [Json.ser, intChars, hn]
    · obtain ⟨c, t, hct⟩ := List.exists_cons_of_ne_nil (natDigits_ne_nil n.toNat)
      have hc : isDigitC c = true :=
        natDigits_all_digits n.toNat c (by rw [hct]; simp)
      refine ⟨c, t, ?_, ?_⟩
      · simp [Json.ser, intChars, hn, hct]
      · simp [isStartChar, hc]
  | str s => exact ⟨'"', escStr s ++ ['"'], rfl, by decide⟩
  | arr xs => exact ⟨'[', serElems xs ++ [']'], rfl, by decide⟩
  | obj ms => exact ⟨lbraceC, serMembers ms ++ [rbraceC], rfl, by decide⟩

theorem digit_char_cases {c : Char} (h : isDigitC c = true) :
    c = '0' ∨ c = '1' ∨ c = '2' ∨ c = '3' ∨ c = '4' ∨
    c = '5' ∨ c = '6' ∨ c = '7' ∨ c = '8' ∨ c = '9' := by
  obtain ⟨k, hk, hb⟩ : ∃ k, c = Char.ofNat k ∧ (48 ≤ k ∧ k ≤ 57) :=
    ⟨c.toNat, (Char.ofNat_toNat c).symm, by simpa [isDigitC] using h⟩
  subst hk
  obtain ⟨h1, h2⟩ := hb
  interval_cases k <;> decide

theorem parseValue_digit (f : Nat) {c : Char} (s : Str) (hc : isDigitC c = true) :
    parseValue (f + 1) (c :: s) =
      (match parseNumTail (c :: s) with
       | some (m, r) => some (.num (m : Int), r)
       | none => none) := by
  rcases digit_char_cases hc with h | h | h | h | h | h | h | h | h | h <;> subst h <;> rfl

theorem parse_ser_complete (f : Nat) :
    (∀ v rest, pvFuel v ≤ f → DelimOk rest →
      parseValue f (Json.ser v ++ rest) = some (v, rest)) ∧
    (∀ xs rest, xs ≠ [] → peFuel xs ≤ f → DelimOk rest →
      parseElems f (serElems xs ++ ']' :: rest) = some (xs, rest)) ∧
    (∀ ms rest, ms ≠ [] → pmFuel ms ≤ f → DelimOk rest →
      parseMembers f (serMembers ms ++ rbraceC :: rest) = some (ms, rest)) := by
  induction f with
  | zero =>
    refine ⟨fun v rest hf _ => absurd hf (by have := pvFuel_pos v; omega),
      fun xs rest hne hf _ => absurd hf (by have := peFuel_pos xs; omega),
      fun ms rest hne hf _ => absurd hf (by have := pmFuel_pos ms; omega)⟩
  | succ f ih =>
    obtain ⟨ihv, ihe, ihm⟩ := ih
    refine ⟨?_, ?_, ?_⟩
    · intro v rest hf hr
      cases v with
      | null => rfl
      | bool b => cases b <;> rfl
      | num n =>
        by_cases hn : n < 0
        · have h1 : Json.ser (.num n) ++ rest = '-' :: (natDigits n.natAbs ++ rest) := by
            simp [Json.ser, intChars, hn]
          rw [h1]
          have h2 : parseValue (f + 1) ('-' :: (natDigits n.natAbs ++ rest)) =
              (match parseNumTail (natDigits n.natAbs ++ rest) with
               | some (m, r) => some (.num (-(m : Int)), r)
               | none => none) := rfl
          rw [h2, parseNumTail_digits n.natAbs rest hr]
          have habs : ((n.natAbs : Int)) = -n := by omega
          simp [habs]
        · have h1 : Json.ser (.num n) ++ rest = natDigits n.toNat ++ rest := by
            simp [Json.ser, intChars, hn]
          obtain ⟨c, t, hct⟩ := List.exists_cons_of_ne_nil (natDigits_ne_nil n.toNat)
          have hcd : isDigitC c = true := natDigits_all_digits n.toNat c (by rw [hct]; simp)
          have hp := digit_not_special hcd
          have h2 : parseValue (f + 1) (natDigits n.toNat ++ rest) =
              (match parseNumTail (natDigits n.toNat ++ rest) with
               | some (m, r) => some (.num (m : Int), r)
               | none => none) := by
            rw [hct, List.cons_append, parseValue_digit f _ hcd, ← List.cons_append, ← hct]
          rw [h1, h2, parseNumTail_digits n.toNat rest hr]
          have htn : ((n.toNat : Int)) = n := Int.toNat_of_nonneg (by omega)
          simp [htn]
      | str s =>
        have h1 : Json.ser (.str s) ++ rest = '"' :: (escStr s ++ '"' :: rest) := by
          simp [Json.ser]
        rw [h1]
        have h2 : parseValue (f + 1) ('"' :: (escStr s ++ '"' :: rest)) =
            (match parseStringBody (escStr s ++ '"' :: rest) with
             | some (t, r) => some (.str t, r)
             | none => none) := rfl
        rw [h2, parseStringBody_esc]
      | arr xs =>
        cases xs with
        | nil => rfl
        | cons x t =>
          have h1 : Json.ser (.arr (x :: t)) ++ rest =
              '[' :: (serElems (x :: t) ++ ']' :: rest) := by
            simp [Json.ser]
          rw [h1]
          obtain ⟨c, t2, hsx, hc⟩ := ser_head_start x
          have hshape : ∃ s3, serElems (x :: t) ++ ']' :: rest = c :: s3 := by
            cases t with
            | nil => exact ⟨t2 ++ ']' :: rest, by simp [serElems, hsx]⟩
            | cons y t3 =>
              exact ⟨t2 ++ (',' :: serElems (y :: t3) ++ ']' :: rest), by simp [serElems, hsx]⟩
          obtain ⟨s3, hs3⟩ := hshape
          have h2 : parseValue (f + 1) ('[' :: (serElems (x :: t) ++ ']' :: rest)) =
              (match dropWs (serElems (x :: t) ++ ']' :: rest) with
               | [] => none
               | d :: r2 =>
                 if d = ']' then some (.arr [], r2)
                 else
                   match parseElems f (d :: r2) with
                   | some (vs, r) => some (.arr vs, r)
                   | none => none) := rfl
          rw [h2, hs3, dropWs_not_ws (startChar_not_ws hc)]
          simp only [if_neg (startChar_ne_rbrack hc)]
          rw [← hs3]
          have hfe : peFuel (x :: t) ≤ f := by
            simp [pvFuel] at hf
            omega
          rw [ihe (x :: t) rest (by simp) hfe hr]
      | obj ms =>
        cases ms with
        | nil => rfl
        | cons m t =>
          obtain ⟨k, v⟩ := m
          have h1 : Json.ser (.obj ((k, v) :: t)) ++ rest =
              lbraceC :: (serMembers ((k, v) :: t) ++ rbraceC :: rest) := by
            simp [Json.ser]
          rw [h1]
          have hshape : ∃ s2, serMembers ((k, v) :: t) ++ rbraceC :: rest = '"' :: s2 := by
            cases t with
            | nil =>
              exact ⟨escStr k ++ '"' :: ':' :: Json.ser v ++ rbraceC :: rest,
                by simp [serMembers]⟩
            | cons m2 t2 =>
              exact ⟨escStr k ++ '"' :: ':' :: Json.ser v ++
                  ',' :: serMembers (m2 :: t2) ++ rbraceC :: rest,
                by simp [serMembers]⟩
          obtain ⟨s2, hs2⟩ := hshape
          have h2 : parseValue (f + 1) (lbraceC :: (serMembers ((k, v) :: t) ++ rbraceC :: rest)) =
              (match dropWs (serMembers ((k, v) :: t) ++ rbraceC :: rest) with
               | [] => none
               | d :: r2 =>
                 if d = rbraceC then some (.obj [], r2)
                 else
                   match parseMembers f (d :: r2) with
                   | some (ns, r) => some (.obj ns, r)
                   | none => none) := rfl
          rw [h2, hs2, dropWs_not_ws (by decide)]
          simp only [if_neg (show ('"' : Char) ≠ rbraceC by decide)]
          rw [← hs2]
          have hfm : pmFuel ((k, v) :: t) ≤ f := by
            simp [pvFuel] at hf
            omega
          rw [ihm ((k, v) :: t) rest (by simp) hfm hr]
    · intro xs rest hne hf hr
      cases xs with
      | nil => exact absurd rfl hne
      | cons x t =>
        cases t with
        | nil =>
          have h1 : serElems [x] ++ ']' :: rest = Json.ser x ++ ']' :: rest := by
            simp [serElems]
          have hfx : pvFuel x ≤ f := by
            simp [peFuel] at hf
            omega
          rw [h1]
          have h2 : parseElems (f + 1) (Json.ser x ++ ']' :: rest) =
              (match parseValue f (Json.ser x ++ ']' :: rest) with
               | none => none
               | some (v, r) =>
                 match dropWs r with
                 | [] => none
                 | c :: r2 =>
                   if c = ',' then
                     match parseElems f r2 with
                     | some (vs, rr) => some (v :: vs, rr)
                     | none => none
                   else if c = ']' then some ([v], r2)
                   else none) := rfl
          rw [h2, ihv x (']' :: rest) hfx (by simp [DelimOk])]
          simp [dropWs, List.dropWhile_cons, isWsChar]
        | cons y t2 =>
          have h1 : serElems (x :: y :: t2) ++ ']' :: rest =
              Json.ser x ++ ',' :: (serElems (y :: t2) ++ ']' :: rest) := by
            simp [serElems]
          have hfx : pvFuel x ≤ f := by
            simp [peFuel] at hf
            omega
          have hfe : peFuel (y :: t2) ≤ f := by
            simp [peFuel] at hf
            omega
          rw [h1]
          have h2 : parseElems (f + 1) (Json.ser x ++ ',' :: (serElems (y :: t2) ++ ']' :: rest)) =
              (match parseValue f (Json.ser x ++ ',' :: (serElems (y :: t2) ++ ']' :: rest)) with
               | none => none
               | some (v, r) =>
                 match dropWs r with
                 | [] => none
                 | c :: r2 =>
                   if c = ',' then
                     match parseElems f r2 with
                     | some (vs, rr) => some (v :: vs, rr)
                     | none => none
                   else if c = ']' then some ([v], r2)
                   else none) := rfl
          rw [h2, ihv x (',' :: (serElems (y :: t2) ++ ']' :: rest)) hfx (by simp [DelimOk])]
          have h3 := ihe (y :: t2) rest (by simp) hfe hr
          simp [dropWs, List.dropWhile_cons, isWsChar, h3]
    · intro ms rest hne hf hr
      cases ms with
      | nil => exact absurd rfl hne
      | cons m t =>
        obtain ⟨k, v⟩ := m
        cases t with
        | nil =>
          have h1 : serMembers [(k, v)] ++ rbraceC :: rest =
              '"' :: (escStr k ++ '"' :: (':' :: (Json.ser v ++ rbraceC :: rest))) := by
            simp [serMembers]
          have hfv : pvFuel v ≤ f := by
            simp [pmFuel] at hf
            omega
          rw [h1]
          have h2 : parseMembers (f + 1)
              ('"' :: (escStr k ++ '"' :: (':' :: (Json.ser v ++ rbraceC :: rest)))) =
              (match parseStringBody (escStr k ++ '"' :: (':' :: (Json.ser v ++ rbraceC :: rest))) with
               | none => none
               | some (k2, r2) =>
                 match dropWs r2 with
                 | [] => none
                 | d :: r3 =>
                   if d = ':' then
                     match parseValue f r3 with
                     | none => none
                     | some (v2, r4) =>
                       match dropWs r4 with
                       | [] => none
                       | e2 :: r5 =>
                         if e2 = ',' then
                           match parseMembers f r5 with
                           | some (ns, rr) => some ((k2, v2) :: ns, rr)
                           | none => none
                         else if e2 = rbraceC then some ([(k2, v2)], r5)
                         else none
                   else none) := rfl
          rw [h2, parseStringBody_esc]
          have h3 := ihv v (rbraceC :: rest) hfv (by simp [DelimOk])
          simp [dropWs, List.dropWhile_cons, h3,
            (show isWsChar ':' = false by decide),
            (show isWsChar rbraceC = false by decide),
            (show ¬(rbraceC = ',') by decide)]
        | cons m2 t2 =>
          have h1 : serMembers ((k, v) :: m2 :: t2) ++ rbraceC :: rest =
              '"' :: (escStr k ++ '"' :: (':' ::
                (Json.ser v ++ ',' :: (serMembers (m2 :: t2) ++ rbraceC :: rest)))) := by
            simp [serMembers]
          have hfv : pvFuel v ≤ f := by
            simp [pmFuel] at hf
            omega
          have hfm : pmFuel (m2 :: t2) ≤ f := by
            simp [pmFuel] at hf
            omega
          rw [h1]
          have h2 : parseMembers (f + 1)
              ('"' :: (escStr k ++ '"' :: (':' ::
                (Json.ser v ++ ',' :: (serMembers (m2 :: t2) ++ rbraceC :: rest))))) =
              (match parseStringBody (escStr k ++ '"' :: (':' ::
                  (Json.ser v ++ ',' :: (serMembers (m2 :: t2) ++ rbraceC :: rest)))) with
               | none => none
               | some (k2, r2) =>
                 match dropWs r2 with
                 | [] => none
                 | d :: r3 =>
                   if d = ':' then
                     match parseValue f r3 with
                     | none => none
                     | some (v2, r4) =>
                       match dropWs r4 with
                       | [] => none
                       | e2 :: r5 =>
                         if e2 = ',' then
                           match parseMembers f r5 with
                           | some (ns, rr) => some ((k2, v2) :: ns, rr)
                           | none => none
                         else if e2 = rbraceC then some ([(k2, v2)], r5)
                         else none
                   else none) := rfl
          rw [h2, parseStringBody_esc]
          have h3 := ihv v (',' :: (serMembers (m2 :: t2) ++ rbraceC :: rest)) hfv
            (by simp [DelimOk])
          have h4 := ihm (m2 :: t2) rest (by simp) hfm hr
          simp [dropWs, List.dropWhile_cons, h3, h4,
            (show isWsChar ':' = false by decide),
            (show isWsChar ',' = false by decide)]

theorem intChars_ne_nil (n : Int) : intChars n ≠ [] := by
  unfold intChars
  split
  · simp
  · exact natDigits_ne_nil _

mutual

theorem pvFuel_le (v : Json) : pvFuel v ≤ (Json.ser v).length := by
  cases v with
  | null => simp [pvFuel, Json.ser, sl]
  | bool b => cases b <;> simp [pvFuel, Json.ser, sl]
  | num n =>
    have h := intChars_ne_nil n
    have : 1 ≤ (intChars n).length := by
      cases hi : intChars n with
      | nil => exact absurd hi h
      | cons a b => simp
    simpa [pvFuel, Json.ser] using this
  | str s => simp [pvFuel, Json.ser]
  | arr xs =>
    cases xs with
    | nil => simp [pvFuel, Json.ser, serElems]
    | cons x t =>
      have h := peFuel_le (x :: t) (by simp)
      simp only [pvFuel, Json.ser]
      simp only [List.length_cons, List.length_append]
      omega
  | obj ms =>
    cases ms with
    | nil => simp [pvFuel, Json.ser, serMembers]
    | cons m t =>
      have h := pmFuel_le (m :: t) (by simp)
      simp only [pvFuel, Json.ser]
      simp only [List.length_cons, List.length_append]
      omega

theorem peFuel_le (xs : List Json) (hne : xs ≠ []) :
    peFuel xs ≤ (serElems xs).length + 1 := by
  cases xs with
  | nil => exact absurd rfl hne
  | cons x t =>
    cases t with
    | nil =>
      have h := pvFuel_le x
      simp only [peFuel, serElems]
      omega
    | cons y t2 =>
      have h1 := pvFuel_le x
      have h2 := peFuel_le (y :: t2) (by simp)
      simp only [peFuel, serElems, List.length_append, List.length_cons]
      omega

theorem pmFuel_le (ms : List (Str × Json)) (hne : ms ≠ []) :
    pmFuel ms ≤ (serMembers ms).length + 1 := by
  cases ms with
  | nil => exact absurd rfl hne
  | cons m t =>
    obtain ⟨k, v⟩ := m
    cases t with
    | nil =>
      have h := pvFuel_le v
      simp only [pmFuel, serMembers, List.length_cons, List.length_append]
      omega
    | cons m2 t2 =>
      have h1 := pvFuel_le v
      have h2 := pmFuel_le (m2 :: t2) (by simp)
      simp only [pmFuel, serMembers, List.length_cons, List.length_append]
      omega

end

theorem fromStr_ser (m : Json) : fromStr (Json.ser m) = some m := by
  unfold fromStr
  have h := (parse_ser_complete ((Json.ser m).length + 1)).1 m []
    (by have := pvFuel_le m; omega) trivial
  rw [List.append_nil] at h
  rw [h]
  rfl

theorem hexDigitChar_not_crlf : ∀ d, d < 16 → hexDigitChar d ≠ '\n' ∧ hexDigitChar d ≠ '\x0d' := by
  decide

theorem mem_cons_append_single {c a b : Char} {l : List Char} (hm : c ∈ a :: (l ++ [b])) :
    c = a ∨ c ∈ l ∨ c = b := by
  rcases List.mem_cons.mp hm with h | h
  · exact Or.inl h
  · rcases List.mem_append.mp h with h | h
    · exact Or.inr (Or.inl h)
    · exact Or.inr (Or.inr (List.mem_singleton.mp h))

theorem escChar_no_crlf (c : Char) : '\n' ∉ escChar c ∧ '\x0d' ∉ escChar c := by
  unfold escChar
  split_ifs with h1 h2 h3 h4 h5 h6 h7 h8
  · decide
  · decide
  · decide
  · decide
  · decide
  · decide
  · decide
  · have hh1 := hexDigitChar_not_crlf (c.toNat / 16) (by omega)
    have hh2 := hexDigitChar_not_crlf (c.toNat % 16) (by omega)
    refine ⟨fun hm => ?_, fun hm => ?_⟩ <;>
      (simp only [List.mem_cons, List.not_mem_nil, or_false] at hm
       rcases hm with h | h | h | h | h | h <;>
         first
         | exact absurd h.symm (by decide)
         | exact absurd h.symm hh1.1
         | exact absurd h.symm hh2.1
         | exact absurd h.symm hh1.2
         | exact absurd h.symm hh2.2
         | exact absurd h (by decide))
  · refine ⟨fun hm => ?_, fun hm => ?_⟩ <;>
      (rw [List.mem_singleton] at hm
       subst hm
       exact absurd (by decide) h3)

theorem escStr_no_crlf (s : Str) : '\n' ∉ escStr s ∧ '\x0d' ∉ escStr s := by
  induction s with
  | nil => simp [escStr_nil]
  | cons c t ih =>
    rw [escStr_cons]
    have h := escChar_no_crlf c
    refine ⟨fun hm => ?_, fun hm => ?_⟩ <;> rcases List.mem_append.mp hm with hx | hx
    · exact h.1 hx
    · exact ih.1 hx
    · exact h.2 hx
    · exact ih.2 hx

theorem natDigits_no_crlf (n : Nat) : '\n' ∉ natDigits n ∧ '\x0d' ∉ natDigits n := by
  constructor <;> intro hmem <;>
    exact absurd (natDigits_all_digits n _ hmem) (by decide)

theorem intChars_no_crlf (n : Int) : '\n' ∉ intChars n ∧ '\x0d' ∉ intChars n := by
  unfold intChars
  have h1 := natDigits_no_crlf n.natAbs
  have h2 := natDigits_no_crlf n.toNat
  split
  · refine ⟨fun hm => ?_, fun hm => ?_⟩ <;> rcases List.mem_cons.mp hm with hx | hx
    · exact absurd hx.symm (by decide)
    · exact h1.1 hx
    · exact absurd hx.symm (by decide)
    · exact h1.2 hx
  · exact h2

mutual

theorem ser_no_crlf (v : Json) : '\n' ∉ Json.ser v ∧ '\x0d' ∉ Json.ser v := by
  cases v with
  | null => decide
  | bool b => cases b <;> decide
  | num n => exact intChars_no_crlf n
  | str s =>
    have h := escStr_no_crlf s
    refine ⟨fun hm => ?_, fun hm => ?_⟩ <;>
      rcases mem_cons_append_single hm with hx | hx | hx
    · exact absurd hx (by decide)
    · exact h.1 hx
    · exact absurd hx (by decide)
    · exact absurd hx (by decide)
    · exact h.2 hx
    · exact absurd hx (by decide)
  | arr xs =>
    have h := serElems_no_crlf xs
    refine ⟨fun hm => ?_, fun hm => ?_⟩ <;>
      rcases mem_cons_append_single hm with hx | hx | hx
    · exact absurd hx (by decide)
    · exact h.1 hx
    · exact absurd hx (by decide)
    · exact absurd hx (by decide)
    · exact h.2 hx
    · exact absurd hx (by decide)
  | obj ms =>
    have h := serMembers_no_crlf ms
    refine ⟨fun hm => ?_, fun hm => ?_⟩ <;>
      rcases mem_cons_append_single hm with hx | hx | hx
    · exact absurd hx (by decide)
    · exact h.1 hx
    · exact absurd hx (by decide)
    · exact absurd hx (by decide)
    · exact h.2 hx
    · exact absurd hx (by decide)

theorem serElems_no_crlf (xs : List Json) : '\n' ∉ serElems xs ∧ '\x0d' ∉ serElems xs := by
  cases xs with
  | nil => simp [serElems]
  | cons x t =>
    cases t with
    | nil => exact ser_no_crlf x
    | cons y t2 =>
      have h1 := ser_no_crlf x
      have h2 := serElems_no_crlf (y :: t2)
      rw [show serElems (x :: y :: t2) = Json.ser x ++ ',' :: serElems (y :: t2) from rfl]
      refine ⟨fun hm => ?_, fun hm => ?_⟩ <;> rcases List.mem_append.mp hm with hx | hx
      · exact h1.1 hx
      · rcases List.mem_cons.mp hx with hy | hy
        · exact absurd hy (by decide)
        · exact h2.1 hy
      · exact h1.2 hx
      · rcases List.mem_cons.mp hx with hy | hy
        · exact absurd hy (by decide)
        · exact h2.2 hy

theorem serMembers_no_crlf (ms : List (Str × Json)) :
    '\n' ∉ serMembers ms ∧ '\x0d' ∉ serMembers ms := by
  cases ms with
  | nil => simp [serMembers]
  | cons m t =>
    obtain ⟨k, v⟩ := m
    have hk := escStr_no_crlf k
    have hv := ser_no_crlf v
    have hone : '\n' ∉ ('"' :: escStr k ++ '"' :: ':' :: Json.ser v) ∧
        '\x0d' ∉ ('"' :: escStr k ++ '"' :: ':' :: Json.ser v) := by
      refine ⟨fun hm => ?_, fun hm => ?_⟩ <;> rcases List.mem_cons.mp hm with hx | hx
      · exact absurd hx (by decide)
      · rcases List.mem_append.mp hx with hy | hy
        · exact hk.1 hy
        · rcases List.mem_cons.mp hy with hz | hz
          · exact absurd hz (by decide)
          · rcases List.mem_cons.mp hz with hw | hw
            · exact absurd hw (by decide)
            · exact hv.1 hw
      · exact absurd hx (by decide)
      · rcases List.mem_append.mp hx with hy | hy
        · exact hk.2 hy
        · rcases List.mem_cons.mp hy with hz | hz
          · exact absurd hz (by decide)
          · rcases List.mem_cons.mp hz with hw | hw
            · exact absurd hw (by decide)
            · exact hv.2 hw
    cases t with
    | nil => exact hone
    | cons m2 t2 =>
      have h3 := serMembers_no_crlf (m2 :: t2)
      rw [show serMembers ((k, v) :: m2 :: t2) =
        ('"' :: escStr k ++ '"' :: ':' :: Json.ser v) ++ ',' :: serMembers (m2 :: t2) from rfl]
      refine ⟨fun hm => ?_, fun hm => ?_⟩ <;> rcases List.mem_append.mp hm with hx | hx
      · exact hone.1 hx
      · rcases List.mem_cons.mp hx with hy | hy
        · exact absurd hy (by decide)
        · exact h3.1 hy
      · exact hone.2 hx
      · rcases List.mem_cons.mp hx with hy | hy
        · exact absurd hy (by decide)
        · exact h3.2 hy

end

theorem splitOnNl_cons_nl (r : Str) : splitOnNl ('\n' :: r) = [] :: splitOnNl r := by
  simp [splitOnNl]

theorem splitOnNl_ne_nil (s : Str) : splitOnNl s ≠ [] := by
  cases s with
  | nil => simp [splitOnNl]
  | cons c t =>
    rw [splitOnNl]
    split
    · simp
    · cases h : splitOnNl t <;> simp

theorem splitOnNl_no_nl {a : Str} (h : '\n' ∉ a) (r : Str) :
    splitOnNl (a ++ '\n' :: r) = a :: splitOnNl r := by
  induction a with
  | nil => simp [splitOnNl_cons_nl]
  | cons c t ih =>
    have hc : ¬c = '\n' := fun he => h (by simp [he])
    have ht : '\n' ∉ t := fun hm => h (by simp [hm])
    rw [List.cons_append, splitOnNl, if_neg hc, ih ht]

theorem linesModel_frame (A B : Str) (hA : '\n' ∉ A) (hB : '\n' ∉ B)
    (hA2 : A.getLast? ≠ some '\x0d') (hB2 : B.getLast? ≠ some '\x0d') :
    linesModel (A ++ '\n' :: (B ++ ['\n', '\n'])) = [A, B, []] := by
  have hsplit : splitOnNl (A ++ '\n' :: (B ++ ['\n', '\n'])) = [A, B, [], []] := by
    rw [splitOnNl_no_nl hA]
    have : B ++ ['\n', '\n'] = B ++ '\n' :: ['\n'] := rfl
    rw [this, splitOnNl_no_nl hB, splitOnNl_cons_nl]
    rfl
  unfold linesModel
  rw [hsplit]
  simp only [List.dropLast, List.getLast?]
  simp [dropTrailCR, hA2, hB2]

theorem expectChars_nil_ne (c : Char) (p : List Char) : expectChars (c :: p) [] = none := rfl

theorem parse_sse_event_frame (t D : Str) (ht : '\n' ∉ t) (ht2 : t.getLast? ≠ some '\x0d')
    (hD : '\n' ∉ D) (hD2 : D.getLast? ≠ some '\x0d') :
    parse_sse_event (sl "event: " ++ t ++ '\n' :: (sl "data: " ++ D ++ sl "\n\n")) =
      ⟨some t, some D⟩ := by
  have hA : '\n' ∉ sl "event: " ++ t := by
    intro hm
    rcases List.mem_append.mp hm with h | h
    · exact absurd h (by decide)
    · exact ht h
  have hB : '\n' ∉ sl "data: " ++ D := by
    intro hm
    rcases List.mem_append.mp hm with h | h
    · exact absurd h (by decide)
    · exact hD h
  have hA2 : (sl "event: " ++ t).getLast? ≠ some '\x0d' := by
    cases t with
    | nil => decide
    | cons c t2 =>
      rw [List.getLast?_append]
      cases hl : (c :: t2).getLast? with
      | none => simp at hl
      | some x =>
        rw [hl] at ht2
        simpa [Option.or] using ht2
  have hB2 : (sl "data: " ++ D).getLast? ≠ some '\x0d' := by
    cases D with
    | nil => decide
    | cons c t2 =>
      rw [List.getLast?_append]
      cases hl : (c :: t2).getLast? with
      | none => simp at hl
      | some x =>
        rw [hl] at hD2
        simpa [Option.or] using hD2
  have hfr : sl "event: " ++ t ++ '\n' :: (sl "data: " ++ D ++ sl "\n\n") =
      (sl "event: " ++ t) ++ '\n' :: ((sl "data: " ++ D) ++ ['\n', '\n']) := by
    simp [sl]
  rw [parse_sse_event, hfr, linesModel_frame _ _ hA hB hA2 hB2]
  have hde : expectChars (sl "data: ") (sl "event: " ++ t) = none := rfl
  have hee : expectChars (sl "event: ") (sl "event: " ++ t) = some t := expectChars_self _ _
  have hdd : expectChars (sl "data: ") (sl "data: " ++ D) = some D := expectChars_self _ _
  simp [List.foldl, hde, hee, hdd,
    (show expectChars (sl "data: ") [] = none from rfl),
    (show expectChars (sl "event: ") [] = none from rfl)]

theorem extractGo_nodelim {buf : Str} (h : findDelim buf = none) :
    ∀ f, extractGo f buf = ([], buf) := by
  intro f
  cases f with
  | zero => rfl
  | succ f2 => simp [extractGo, h]

theorem findDelim_le {buf : Str} {p : Nat} (h : findDelim buf = some p) :
    p + 2 ≤ buf.length := by
  induction buf generalizing p with
  | nil => simp [findDelim] at h
  | cons a t ih =>
    cases t with
    | nil => simp [findDelim] at h
    | cons b t2 =>
      rw [findDelim] at h
      split at h
      · simp at h
        simp [← h]
      · rw [Option.map_eq_some'] at h
        obtain ⟨q, hq, hpq⟩ := h
        have := ih hq
        simp at this ⊢
        omega

theorem findDelim_append_some {a : Str} {p : Nat} (h : findDelim a = some p) (b : Str) :
    findDelim (a ++ b) = some p := by
  induction a generalizing p with
  | nil => simp [findDelim] at h
  | cons x t ih =>
    cases t with
    | nil => simp [findDelim] at h
    | cons y t2 =>
      rw [findDelim] at h
      rw [List.cons_append, List.cons_append, findDelim]
      split at h
      · next hnl =>
        rw [if_pos hnl]
        exact h
      · next hnl =>
        rw [if_neg hnl]
        rw [Option.map_eq_some'] at h
        obtain ⟨q, hq, hpq⟩ := h
        rw [← List.cons_append, ih hq]
        simp [hpq]

theorem extractGo_fuel : ∀ n f g (buf : Str), buf.length ≤ n → n ≤ f → n ≤ g →
    extractGo f buf = extractGo g buf := by
  intro n
  induction n with
  | zero =>
    intro f g buf hb hf hg
    have : buf = [] := List.eq_nil_of_length_eq_zero (by omega)
    subst this
    rw [extractGo_nodelim (by rfl), extractGo_nodelim (by rfl)]
  | succ n ih =>
    intro f g buf hb hf hg
    cases hd : findDelim buf with
    | none => rw [extractGo_nodelim hd, extractGo_nodelim hd]
    | some p =>
      have hple := findDelim_le hd
      cases f with
      | zero => omega
      | succ f2 =>
        cases g with
        | zero => omega
        | succ g2 =>
          rw [extractGo, extractGo, hd]
          have hrest : (buf.drop (p + 2)).length ≤ n := by
            simp [List.length_drop]
            omega
          simp only [ih f2 g2 (buf.drop (p + 2)) hrest (by omega) (by omega)]

theorem extractEvents_eq_go {f : Nat} (buf : Str) (h : buf.length ≤ f) :
    extractEvents buf = extractGo f buf :=
  extractGo_fuel buf.length buf.length f buf le_rfl le_rfl h

theorem extractEvents_nodelim {buf : Str} (h : findDelim buf = none) :
    extractEvents buf = ([], buf) := extractGo_nodelim h _

theorem extractEvents_delim {buf : Str} {p : Nat} (h : findDelim buf = some p) :
    extractEvents buf = (buf.take (p + 2) :: (extractEvents (buf.drop (p + 2))).1,
      (extractEvents (buf.drop (p + 2))).2) := by
  have hple := findDelim_le h
  unfold extractEvents
  cases hb : buf.length with
  | zero => omega
  | succ L =>
    rw [extractGo, h]
    have hrl : (buf.drop (p + 2)).length ≤ L := by
      simp [List.length_drop]
      omega
    have he := extractGo_fuel (buf.drop (p + 2)).length L (buf.drop (p + 2)).length
      (buf.drop (p + 2)) le_rfl hrl le_rfl
    simp only [he]

theorem extractEvents_rem_nodelim (buf : Str) :
    findDelim (extractEvents buf).2 = none := by
  suffices h : ∀ n (buf : Str), buf.length ≤ n → findDelim (extractEvents buf).2 = none from
    h buf.length buf le_rfl
  intro n
  induction n using Nat.strong_induction_on with
  | _ n ih =>
    intro buf hb
    cases hd : findDelim buf with
    | none => rw [extractEvents_nodelim hd]; exact hd
    | some p =>
      have hple := findDelim_le hd
      rw [extractEvents_delim hd]
      exact ih (buf.drop (p + 2)).length (by simp [List.length_drop]; omega) _ le_rfl

theorem extractEvents_append (a b : Str) :
    extractEvents (a ++ b) =
      ((extractEvents a).1 ++ (extractEvents ((extractEvents a).2 ++ b)).1,
       (extractEvents ((extractEvents a).2 ++ b)).2) := by
  suffices h : ∀ n (a : Str), a.length ≤ n → extractEvents (a ++ b) =
      ((extractEvents a).1 ++ (extractEvents ((extractEvents a).2 ++ b)).1,
       (extractEvents ((extractEvents a).2 ++ b)).2) from h a.length a le_rfl
  intro n
  induction n using Nat.strong_induction_on with
  | _ n ih =>
    intro a hn
    cases hd : findDelim a with
    | none =>
      rw [extractEvents_nodelim hd]
      simp
    | some p =>
      have hple := findDelim_le hd
      have hdab := findDelim_append_some hd b
      have htake : (a ++ b).take (p + 2) = a.take (p + 2) := by
        rw [List.take_append_of_le_length (by omega)]
      have hdrop : (a ++ b).drop (p + 2) = a.drop (p + 2) ++ b := by
        rw [List.drop_append_of_le_length (by omega)]
      rw [extractEvents_delim hdab, extractEvents_delim hd, htake, hdrop,
        ih (a.drop (p + 2)).length (by simp [List.length_drop]; omega) _ le_rfl]
      simp

theorem processChunks_flatten : ∀ (chunks : List Str) (buf : Str), findDelim buf = none →
    processChunks buf chunks = ((extractEvents (buf ++ chunks.flatten)).1).map parse_sse_event := by
  intro chunks
  induction chunks with
  | nil =>
    intro buf hb
    simp [processChunks, extractEvents_nodelim hb]
  | cons c cs ih =>
    intro buf hb
    rw [processChunks]
    have hrem := extractEvents_rem_nodelim (buf ++ c)
    have hA := extractEvents_append (buf ++ c) cs.flatten
    cases hE : extractEvents (buf ++ c) with
    | mk es r =>
      rw [hE] at hA hrem
      simp only [] at hrem ⊢
      rw [ih r hrem,
        show (c :: cs).flatten = c ++ cs.flatten from rfl, ← List.append_assoc, hA]
      simp

theorem retryGoAux_attempts_le (connect : Nat → Except SseErrorM Unit) :
    ∀ r a s le, (retryGoAux connect r a s le).attemptsMade ≤ a + r := by
  intro r
  induction r with
  | zero => intro a s le; simp [retryGoAux]
  | succ r2 ih =>
    intro a s le
    rw [retryGoAux]
    cases connect (a + 1) with
    | ok u => simp
    | error e =>
      have h := ih (a + 1) (s + 1) (some e)
      show (retryGoAux connect r2 (a + 1) (s + 1) (some e)).attemptsMade ≤ a + (r2 + 1)
      omega

theorem retryGoAux_first_ok (connect : Nat → Except SseErrorM Unit) :
    ∀ r a s le k, a < k → k ≤ a + r → connect k = .ok () →
      (∀ j, a < j → j < k → connect j ≠ .ok ()) →
      retryGoAux connect r a s le = ⟨.ok (), k, s + (k - a - 1)⟩ := by
  intro r
  induction r with
  | zero => intro a s le k h1 h2; omega
  | succ r2 ih =>
    intro a s le k h1 h2 hk hprev
    rw [retryGoAux]
    by_cases hka : k = a + 1
    · subst hka
      rw [hk]
      simp
    · have h := hprev (a + 1) (by omega) (by omega)
      cases hc : connect (a + 1) with
      | ok u => exact absurd (by rw [hc]) h
      | error e =>
        have hstep := ih (a + 1) (s + 1) (some e) k (by omega) (by omega) hk
          (fun j hj1 hj2 => hprev j (by omega) hj2)
        show retryGoAux connect r2 (a + 1) (s + 1) (some e) = _
        rw [hstep]
        have harith : s + 1 + (k - (a + 1) - 1) = s + (k - a - 1) := by omega
        rw [harith]

theorem retryGoAux_all_fail (connect : Nat → Except SseErrorM Unit) :
    ∀ r a s le, 0 < r → (∀ j, a < j → j ≤ a + r → connect j ≠ .ok ()) →
      ∀ e, connect (a + r) = .error e →
      retryGoAux connect r a s le = ⟨.error e, a + r, s + r⟩ := by
  intro r
  induction r with
  | zero => intro a s le h; omega
  | succ r2 ih =>
    intro a s le _ hfail e hlast
    rw [retryGoAux]
    cases hc : connect (a + 1) with
    | ok u => exact absurd (by rw [hc]) (hfail (a + 1) (by omega) (by omega))
    | error e1 =>
      show retryGoAux connect r2 (a + 1) (s + 1) (some e1) = _
      rcases Nat.eq_zero_or_pos r2 with hr | hr
      · subst hr
        have he1 : e1 = e := by
          rw [show a + (0 + 1) = a + 1 from by omega] at hlast
          rw [hc] at hlast
          injection hlast
        subst he1
        simp [retryGoAux]
      · have hstep := ih (a + 1) (s + 1) (some e1) hr
          (fun j hj1 hj2 => hfail j (by omega) (by omega)) e
          (by rw [show a + 1 + r2 = a + (r2 + 1) from by omega]; exact hlast)
        rw [hstep]
        have h1 : a + 1 + r2 = a + (r2 + 1) := by omega
        have h2 : s + 1 + r2 = s + (r2 + 1) := by omega
        rw [h1, h2]

theorem retryGoAux_result_charact (connect : Nat → Except SseErrorM Unit) :
    ∀ r a s le, (retryGoAux connect r a s le).result = .ok () ∨
      ∃ e, (retryGoAux connect r a s le).result = .error e ∧
        ((∃ j, a < j ∧ j ≤ a + r ∧ connect j = .error e) ∨ le = some e ∨
          e = .other connectFailedMsg) := by
  intro r
  induction r with
  | zero =>
    intro a s le
    cases le with
    | none => exact Or.inr ⟨.other connectFailedMsg, by simp [retryGoAux], Or.inr (Or.inr rfl)⟩
    | some e => exact Or.inr ⟨e, by simp [retryGoAux], Or.inr (Or.inl rfl)⟩
  | succ r2 ih =>
    intro a s le
    rw [retryGoAux]
    cases hc : connect (a + 1) with
    | ok u => left; rfl
    | error e1 =>
      rcases ih (a + 1) (s + 1) (some e1) with h | ⟨e, he, hsrc⟩
      · left; exact h
      · right
        refine ⟨e, he, ?_⟩
        rcases hsrc with ⟨j, hj1, hj2, hj3⟩ | h | h
        · exact Or.inl ⟨j, by omega, by omega, hj3⟩
        · rw [Option.some.injEq] at h
          exact Or.inl ⟨a + 1, by omega, by omega, by rw [hc, h]⟩
        · exact Or.inr (Or.inr h)

/-- C1: code bug witness. The server serializes System(Endpoint(u)) as the
frame event: endpoint / data: u with the URL as raw text, but the client's
routing decodes endpoint data with the serde parser for SystemMessageType,
which fails on a raw URL; at the concrete URL below the frame is dropped, the
reader continues, and message_url stays None instead of becoming Some(u) as
the claim states. -/
theorem c1_endpoint_frame_dropped :
    routeSseEvent ⟨none, []⟩ true
      (parse_sse_event (SseEvent.to_sse_event (.system (.endpoint
        (sl "http://127.0.0.1:8080/message/4fa4eca2-900b-4daf-b69b-16e169b1749c"))))) =
      (⟨none, []⟩, .continueReading) := rfl

/-- C4 counterexample: with the event type string a\nb (which contains a
newline), the parse of the encoded Transport frame yields event type a, not
the original string, so the round trip fails as universally stated. -/
theorem c4_counterexample :
    (parse_sse_event (SseEvent.to_sse_event (.transport .null (sl "a\nb")))).event_type ≠
      some (sl "a\nb") := by decide

/-- C4 (amended): for every JsonRpcMessage m and event type t that contains no
newline and does not end in a carriage return, parsing the frame produced by
encoding Transport with message m and event type t yields event type t and a
data field whose JSON decoding (parse_json_rpc) equals m. -/
theorem c4_frame_roundtrip (m : Json) (t : Str) (h1 : '\n' ∉ t)
    (h2 : t.getLast? ≠ some '\x0d') :
    (parse_sse_event (SseEvent.to_sse_event (.transport m t))).event_type = some t ∧
    ∃ d, (parse_sse_event (SseEvent.to_sse_event (.transport m t))).data = some d ∧
      parse_json_rpc (parse_sse_event (SseEvent.to_sse_event (.transport m t))) =
        some (some m) := by
  have hD1 := (ser_no_crlf m).1
  have hD2 : (Json.ser m).getLast? ≠ some '\x0d' := by
    intro hl
    obtain ⟨hne, heq⟩ := List.mem_getLast?_eq_getLast (Option.mem_def.mpr hl)
    exact (ser_no_crlf m).2 (heq ▸ List.getLast_mem hne)
  have hp := parse_sse_event_frame t (Json.ser m) h1 h2 hD1 hD2
  have hto : SseEvent.to_sse_event (.transport m t) =
      sl "event: " ++ t ++ '\n' :: (sl "data: " ++ Json.ser m ++ sl "\n\n") := rfl
  rw [hto, hp]
  exact ⟨rfl, Json.ser m, rfl, by simp [parse_json_rpc, fromStr_ser m]⟩

/-- C4 witness: the amended round trip evaluated at a concrete message and the
concrete event type custom. -/
theorem c4_frame_roundtrip_witness :
    (parse_sse_event (SseEvent.to_sse_event
      (.transport (.obj [(sl "id", .str (sl "x"))]) (sl "custom")))).event_type =
        some (sl "custom") ∧
    ∃ d, (parse_sse_event (SseEvent.to_sse_event
        (.transport (.obj [(sl "id", .str (sl "x"))]) (sl "custom")))).data = some d ∧
      parse_json_rpc (parse_sse_event (SseEvent.to_sse_event
        (.transport (.obj [(sl "id", .str (sl "x"))]) (sl "custom")))) =
          some (some (.obj [(sl "id", .str (sl "x"))])) :=
  c4_frame_roundtrip (.obj [(sl "id", .str (sl "x"))]) (sl "custom") (by decide) (by decide)

/-- C5 counterexample: the frame data: é terminated by a blank line, as bytes,
split between the two bytes of é. Each chunk goes through lossy UTF-8
conversion, so the split yields two replacement characters where the single
chunk yields é, and the parsed event sequences differ even though the two
byte partitions concatenate to the same bytes. -/
theorem c5_counterexample :
    ([[100, 97, 116, 97, 58, 32, 0xC3], [0xA9, 10, 10]] : List (List Nat)).flatten =
      [100, 97, 116, 97, 58, 32, 0xC3, 0xA9, 10, 10] ∧
    byteFeed [[100, 97, 116, 97, 58, 32, 0xC3], [0xA9, 10, 10]] ≠
      byteFeed [[100, 97, 116, 97, 58, 32, 0xC3, 0xA9, 10, 10]] := by
  constructor
  · rfl
  · decide

/-- C5 (amended): for every finite sequence of text chunks (a byte partition
whose boundaries fall on UTF-8 character boundaries, so that the per-chunk
lossy conversion is the identity embedding), feeding the chunks one at a time
through the reader's rolling buffer yields the same parsed event sequence as
feeding the whole concatenation as one chunk. -/
theorem c5_chunking (chunks : List Str) : clientFeed chunks = clientFeed [chunks.flatten] := by
  rw [clientFeed, clientFeed, processChunks_flatten chunks [] rfl,
    processChunks_flatten [chunks.flatten] [] rfl]
  simp

/-- C2: server-mode send. Metadata that does not deserialize to an envelope
with a client_id fails with the invalid-metadata error; a client_id absent
from the registry fails with the not-found error; a registered id whose
writer-side receiver is gone is reported as peer_gone with the registry entry
kept and the call still returning ok; otherwise a Transport event with event
type message wrapping the message is enqueued for that client and send
returns ok. -/
theorem c2_server_send (reg : Registry) (message metadata : Json) :
    (sseMetadataFromJson metadata = none →
      serverSend reg message metadata = .error (.other invalidMetadataMsg)) ∧
    (∀ cid, sseMetadataFromJson metadata = some cid → regLookup reg cid = none →
      serverSend reg message metadata = .error (.other (clientNotFoundMsg cid))) ∧
    (∀ cid ch, sseMetadataFromJson metadata = some cid → regLookup reg cid = some ch →
      ch.receiverAlive = false →
      serverSend reg message metadata = .ok (reg, .peerGone)) ∧
    (∀ cid ch, sseMetadataFromJson metadata = some cid → regLookup reg cid = some ch →
      ch.receiverAlive = true →
      serverSend reg message metadata =
        .ok (regUpdate reg cid ⟨true, ch.queue ++ [.transport message (sl "message")]⟩,
          .delivered)) := by
  refine ⟨fun h => ?_, fun cid h hl => ?_, fun cid ch h hl ha => ?_, fun cid ch h hl ha => ?_⟩
  · simp [serverSend, h]
  · simp [serverSend, h, send_to_client, hl]
  · simp [serverSend, h, send_to_client, hl, ha]
  · have : ch = ⟨true, ch.queue⟩ := by cases ch; simp_all
    simp [serverSend, h, send_to_client, hl, ha, SseEvent.new_transport]

/-- C2 witness: the four arms of the server send evaluated on concrete
registries and metadata (client ids 1 and 2 in UUID form). -/
theorem c2_server_send_witness :
    serverSend [] .null .null = .error (.other invalidMetadataMsg) ∧
    serverSend [] .null
        (.obj [(sl "client_id", .str (sl "00000000-0000-0000-0000-000000000001"))]) =
      .error (.other (clientNotFoundMsg ⟨1⟩)) ∧
    serverSend [(⟨1⟩, ⟨false, []⟩)] .null
        (.obj [(sl "client_id", .str (sl "00000000-0000-0000-0000-000000000001"))]) =
      .ok ([(⟨1⟩, ⟨false, []⟩)], .peerGone) ∧
    serverSend [(⟨1⟩, ⟨true, []⟩)] .null
        (.obj [(sl "client_id", .str (sl "00000000-0000-0000-0000-000000000001"))]) =
      .ok ([(⟨1⟩, ⟨true, [.transport .null (sl "message")]⟩)], .delivered) :=
  ⟨(c2_server_send [] .null .null).1 rfl,
   (c2_server_send [] .null _).2.1 ⟨1⟩ rfl rfl,
   (c2_server_send [(⟨1⟩, ⟨false, []⟩)] .null _).2.2.1 ⟨1⟩ ⟨false, []⟩ rfl rfl rfl,
   (c2_server_send [(⟨1⟩, ⟨true, []⟩)] .null _).2.2.2 ⟨1⟩ ⟨true, []⟩ rfl rfl rfl⟩

/-- C3 counterexample: POST /x is neither GET / nor POST /message/(uuid), yet
the server answers 400, not 404, because the route match sends every POST to
the message arm. -/
theorem c3_counterexample :
    (handleRequest [] ⟨0⟩ true .post (sl "/x") []).response.status = 400 ∧
    (handleRequest [] ⟨0⟩ true .post (sl "/x") []).response.status ≠ 404 := by
  constructor
  · rfl
  · decide

/-- C3 (amended): GET / answers 200 with Content-Type text/event-stream;
every POST whose path does not consist of /message/ followed by a parseable
UUID answers 400 (this includes POST /message/(malformed seg)); and every
request that is neither a POST nor GET / answers 404. -/
theorem c3_routing (reg : Registry) (fid : ClientIdM) (sinkOpen : Bool)
    (method : HttpMethod) (path body : Str) :
    (method = .get ∧ path = sl "/" →
      (handleRequest reg fid sinkOpen method path body).response.status = 200 ∧
      (handleRequest reg fid sinkOpen method path body).response.contentType =
        some (sl "text/event-stream")) ∧
    (method = .post → (expectChars (sl "/message/") path).bind uuidParse = none →
      (handleRequest reg fid sinkOpen method path body).response.status = 400) ∧
    (method ≠ .post → ¬(method = .get ∧ path = sl "/") →
      (handleRequest reg fid sinkOpen method path body).response.status = 404) := by
  refine ⟨fun h => ?_, fun hm hu => ?_, fun hm hg => ?_⟩
  · simp [handleRequest, h]
  · subst hm
    simp [handleRequest, hu]
  · simp [handleRequest, hg, hm]

/-- C3 witness: the three routing arms evaluated at concrete requests. -/
theorem c3_routing_witness :
    (handleRequest [] ⟨0⟩ true .get (sl "/") []).response.status = 200 ∧
    (handleRequest [] ⟨0⟩ true .get (sl "/") []).response.contentType =
      some (sl "text/event-stream") ∧
    (handleRequest [] ⟨0⟩ true .post (sl "/message/zzz") []).response.status = 400 ∧
    (handleRequest [] ⟨0⟩ true .put (sl "/") []).response.status = 404 :=
  ⟨((c3_routing [] ⟨0⟩ true .get (sl "/") []).1 ⟨rfl, rfl⟩).1,
   ((c3_routing [] ⟨0⟩ true .get (sl "/") []).1 ⟨rfl, rfl⟩).2,
   (c3_routing [] ⟨0⟩ true .post (sl "/message/zzz") []).2.1 rfl rfl,
   (c3_routing [] ⟨0⟩ true .put (sl "/") []).2.2 (by decide) (by decide)⟩

/-- C6: the client retry loop invokes the connection attempt at most
retry_count times; when the first success is at attempt k it returns ok right
there with k attempts made and a sleep after each of the k-1 failed attempts
before it; when every attempt fails it makes exactly retry_count attempts and
returns the last attempt's error (sleeping after each failure); and any error
it returns is either some attempt's error or the connect-failed fallback used
when no error was recorded. -/
theorem c6_retry (retry_count : Nat) (connect : Nat → Except SseErrorM Unit)
    (hrc : 1 ≤ retry_count) :
    (retryLoop connect retry_count).attemptsMade ≤ retry_count ∧
    (∀ k, 1 ≤ k → k ≤ retry_count → connect k = .ok () →
      (∀ j, 1 ≤ j → j < k → connect j ≠ .ok ()) →
      retryLoop connect retry_count = ⟨.ok (), k, k - 1⟩) ∧
    ((∀ j, 1 ≤ j → j ≤ retry_count → connect j ≠ .ok ()) →
      ∀ e, connect retry_count = .error e →
      retryLoop connect retry_count = ⟨.error e, retry_count, retry_count⟩) ∧
    ((retryLoop connect retry_count).result = .ok () ∨
      ∃ e, (retryLoop connect retry_count).result = .error e ∧
        ((∃ j, 1 ≤ j ∧ j ≤ retry_count ∧ connect j = .error e) ∨
          e = .other connectFailedMsg)) := by
  refine ⟨?_, fun k hk1 hk2 hk3 hk4 => ?_, fun hall e he => ?_, ?_⟩
  · have h := retryGoAux_attempts_le connect retry_count 0 0 none
    simpa [retryLoop] using h
  · have h := retryGoAux_first_ok connect retry_count 0 0 none k (by omega) (by omega) hk3
      (fun j hj1 hj2 => hk4 j (by omega) hj2)
    rw [retryLoop, h]
    have : 0 + (k - 0 - 1) = k - 1 := by omega
    rw [this]
  · have h := retryGoAux_all_fail connect retry_count 0 0 none (by omega)
      (fun j hj1 hj2 => hall j (by omega) (by omega)) e (by simpa using he)
    rw [retryLoop, h]
    simp
  · have h := retryGoAux_result_charact connect retry_count 0 0 none
    rcases h with h | ⟨e, he, hsrc⟩
    · exact Or.inl h
    · refine Or.inr ⟨e, he, ?_⟩
      rcases hsrc with ⟨j, hj1, hj2, hj3⟩ | h2 | h2
      · exact Or.inl ⟨j, by omega, by omega, hj3⟩
      · exact absurd h2 (by simp)
      · exact Or.inr h2

/-- C6 witness: with three attempts allowed, failure then success on the
second attempt short-circuits the loop with two attempts and one sleep. -/
theorem c6_retry_witness :
    retryLoop (fun k => if k = 2 then .ok () else .error (.httpError (500 + k))) 3 =
      ⟨.ok (), 2, 1⟩ :=
  (c6_retry 3 (fun k => if k = 2 then .ok () else .error (.httpError (500 + k)))
      (by omega)).2.1 2 (by omega) (by omega) (by simp)
    (fun j h1 h2 => by
      interval_cases j
      simp)

/-- C7: a POST /message/(seg) whose segment is a well-formed UUID but whose
body does not parse as a JsonRpcMessage answers 200 with an empty (non-stream)
body, forwards nothing to the inbound sink, and leaves the registry
unchanged. -/
theorem c7_malformed_post (reg : Registry) (fid : ClientIdM) (sinkOpen : Bool)
    (seg body : Str) (u : Nat) (hu : uuidParse seg = some u) (hb : fromStr body = none) :
    handleRequest reg fid sinkOpen .post (sl "/message/" ++ seg) body =
      ⟨⟨200, none, none, none, false⟩, reg, none⟩ := by
  simp [handleRequest, expectChars_self, hu, hb]

/-- C7 witness: the scenario with the body not-json and a concrete UUID. -/
theorem c7_malformed_post_witness :
    handleRequest [] ⟨0⟩ true .post
        (sl "/message/" ++ sl "4fa4eca2-900b-4daf-b69b-16e169b1749c") (sl "not-json") =
      ⟨⟨200, none, none, none, false⟩, [], none⟩ :=
  c7_malformed_post [] ⟨0⟩ true (sl "4fa4eca2-900b-4daf-b69b-16e169b1749c") (sl "not-json")
    0x4fa4eca2900b4dafb69b16e169b1749c rfl rfl

/-- C8: client-mode send fails with the endpoint-not-advertised error and
issues no HTTP request when message_url is unset; otherwise it issues exactly
one POST of the serialized message to the stored URL with Content-Type
application/json, succeeds exactly when the response status is 2xx, and fails
with the HTTP-status error carrying the response code otherwise. -/
theorem c8_client_send (msgUrl : Option Str) (m : Json) (respond : PostRequest → Nat) :
    (msgUrl = none → clientSend msgUrl m respond = (.error (.other noEndpointMsg), [])) ∧
    (∀ url, msgUrl = some url →
      (clientSend msgUrl m respond).2 = [⟨url, sl "application/json", Json.ser m⟩] ∧
      ((clientSend msgUrl m respond).1 = .ok () ↔
        is_success (respond ⟨url, sl "application/json", Json.ser m⟩) = true) ∧
      (is_success (respond ⟨url, sl "application/json", Json.ser m⟩) = false →
        (clientSend msgUrl m respond).1 =
          .error (.httpError (respond ⟨url, sl "application/json", Json.ser m⟩)))) := by
  refine ⟨fun h => by simp [clientSend, h], fun url h => ?_⟩
  subst h
  refine ⟨?_, ?_, ?_⟩
  · simp [clientSend]
    split <;> rfl
  · simp only [clientSend]
    split
    · next hs => simp [hs]
    · next hs => simp [hs]
  · intro hs
    simp [clientSend, hs]

/-- C8 witness: the unset-URL arm, a 204 success, a 500 failure, and the
single request issued. -/
theorem c8_client_send_witness :
    clientSend none .null (fun _ => 200) = (.error (.other noEndpointMsg), []) ∧
    (clientSend (some (sl "http://h/m/1")) .null (fun _ => 204)).1 = .ok () ∧
    (clientSend (some (sl "http://h/m/1")) .null (fun _ => 500)).1 =
      .error (.httpError 500) ∧
    (clientSend (some (sl "http://h/m/1")) .null (fun _ => 204)).2 =
      [⟨sl "http://h/m/1", sl "application/json", Json.ser .null⟩] :=
  ⟨(c8_client_send none .null (fun _ => 200)).1 rfl,
   (((c8_client_send (some (sl "http://h/m/1")) .null (fun _ => 204)).2 _ rfl).2.1).mpr rfl,
   ((c8_client_send (some (sl "http://h/m/1")) .null (fun _ => 500)).2 _ rfl).2.2 rfl,
   ((c8_client_send (some (sl "http://h/m/1")) .null (fun _ => 204)).2 _ rfl).1⟩

/-- C9: server-mode close returns ok, leaves the registry empty, and attempts
exactly one shutdown send, with reason Server is shutting down, for each entry
registered at entry, regardless of whether each entry's receiver is still
alive (per-client failures are ignored). -/
theorem c9_server_close (reg : Registry) :
    (serverClose reg).result = .ok () ∧
    (serverClose reg).registryAfter = [] ∧
    (serverClose reg).sendsAttempted =
      reg.map (fun p => (p.1, SseEvent.system (.shutdown (sl "Server is shutting down")))) := by
  refine ⟨rfl, rfl, ?_⟩
  show (closeDrain reg).1 = _
  induction reg with
  | nil => rfl
  | cons p t ih =>
    obtain ⟨cid, ch⟩ := p
    simp [closeDrain, ih, shutdownReasonMsg]

/-- C10: a POST /message/(seg) with a well-formed UUID and a body that parses
as a JsonRpcMessage answers 200 and forwards the message with that client id
to the open inbound sink even when the id is not in the registry: the inbound
path performs no registry membership check. -/
theorem c10_post_no_membership_check (reg : Registry) (fid : ClientIdM) (seg body : Str)
    (u : Nat) (m : Json) (hu : uuidParse seg = some u) (hb : fromStr body = some m)
    (hreg : regLookup reg ⟨u⟩ = none) :
    handleRequest reg fid true .post (sl "/message/" ++ seg) body =
      ⟨⟨200, none, none, none, false⟩, reg, some ⟨m, ⟨u⟩⟩⟩ := by
  simp [handleRequest, expectChars_self, hu, hb]

/-- C10 witness: an empty registry, a concrete UUID never registered, and
body null; the message is still forwarded. -/
theorem c10_post_no_membership_check_witness :
    handleRequest [] ⟨0⟩ true .post
        (sl "/message/" ++ sl "4fa4eca2900b4dafb69b16e169b1749c") (sl "null") =
      ⟨⟨200, none, none, none, false⟩, [],
        some ⟨.null, ⟨0x4fa4eca2900b4dafb69b16e169b1749c⟩⟩⟩ :=
  c10_post_no_membership_check [] ⟨0⟩ (sl "4fa4eca2900b4dafb69b16e169b1749c") (sl "null")
    0x4fa4eca2900b4dafb69b16e169b1749c .null rfl rfl rfl
